import Mathlib

/-!
# go-csvhelper: decoding one CSV row into the fields of a struct

A shallow embedding of `csv.go` (package `csvhelper`).

* The target `v` is a pointer to a struct; the struct is a list of fields,
  each with its `reflect.Kind`, its stored value and whether it is exported:
  reflect's setters panic on a field that is not.
* `csv.Reader` is an explicit state with a `Read` operation returning the Go
  pair `(record, err)` and the next state.
* A call returns `nil`, a non-nil `error`, or ends in a run-time panic.
* `strconv.ParseInt` and `strconv.ParseUint` are embedded at base 10 and
  bit size 64, the only way `csv.go` calls them, and `strconv.Itoa` as the
  decimal rendering.  Floating-point parsing and the width of `int` are taken
  from a `Platform`.
* The section on the vocabulary of the specification holds the notions the
  claims are stated with (well-formed cells, decimal numerals, regular
  endings); each is related to the embedded code by a theorem.
-/

namespace csvhelper

/-! ## reflect: kinds, fields and setters -/

/-- The kinds of `reflect.Kind`. -/
inductive Kind
  | Invalid | Bool
  | Int | Int8 | Int16 | Int32 | Int64
  | Uint | Uint8 | Uint16 | Uint32 | Uint64 | Uintptr
  | Float32 | Float64 | Complex64 | Complex128
  | Array | Chan | Func | Interface | Map | Pointer | Slice
  | String | Struct | UnsafePointer
  deriving DecidableEq, Repr

/-- The value stored in a struct field.  Floating-point values are kept as
their IEEE-754 bit patterns; `other` stands for the contents of a field of a
kind the decoder never writes. -/
inductive Val
  | str (s : String)
  | int (n : Int)
  | uint (n : Nat)
  | float (bits : Nat)
  | other (tag : Nat)
  deriving DecidableEq, Repr

/-- One field of the target struct, as seen through `s.Field(i)`: its kind,
its value, and whether its name is exported.  A field with an unexported name
can be read through reflection but not set. -/
structure Field where
  kind : Kind
  val : Val
  exported : Bool
  deriving DecidableEq, Repr

/-- Run-time panics: `reflect: Field index out of range`; an index
expression `record[i]` out of range; a reflect setter applied to a field of
the wrong kind; a reflect setter applied to a field obtained through an
unexported name (`mustBeAssignable`). -/
inductive Panic
  | fieldIndex | sliceIndex | setter | unexported
  deriving DecidableEq, Repr

/-- The struct `reflect.ValueOf(v).Elem()`: its fields in declaration order. -/
abbrev Struct := List Field

/-- The method `s.NumField()`. -/
def Struct.NumField (s : Struct) : Nat := s.length

/-! ## strconv -/

/-- The two sentinel errors `strconv.ErrSyntax` and `strconv.ErrRange`. -/
inductive ConvErr
  | ErrSyntax | ErrRange
  deriving DecidableEq, Repr

/-- The struct `strconv.NumError`. -/
structure NumError where
  Func : String
  Num : String
  Err : ConvErr
  deriving DecidableEq, Repr

/-- The helper `syntaxError(fn, str)` of strconv. -/
def syntaxError (fn str : String) : NumError := ⟨fn, str, .ErrSyntax⟩

/-- The helper `rangeError(fn, str)` of strconv. -/
def rangeError (fn str : String) : NumError := ⟨fn, str, .ErrRange⟩

/-- The constant `maxUint64 = 1<<64 - 1`. -/
def maxUint64 : Nat := 2 ^ 64 - 1

/-- The digit loop of `strconv.ParseUint(s, 10, 64)` over the remaining
characters, with accumulator `n` (a `uint64`).  Returns Go's pair
`(value, err)`. -/
def ParseUint.loop (s0 : String) : List Char → Nat → Nat × Option NumError
  | [], n => (n, none)
  | c :: cs, n =>
    if '0' ≤ c ∧ c ≤ '9' then
      let d := c.toNat - '0'.toNat
      -- cutoff = maxUint64/10 + 1
      if n ≥ maxUint64 / 10 + 1 then
        (maxUint64, some (rangeError "ParseUint" s0))
      else
        let n10 := (n * 10) % 2 ^ 64
        let n1 := (n10 + d) % 2 ^ 64
        if n1 < n10 ∨ n1 > maxUint64 then
          (maxUint64, some (rangeError "ParseUint" s0))
        else
          ParseUint.loop s0 cs n1
    else
      -- letters are digits >= base 10, everything else is no digit at all
      (0, some (syntaxError "ParseUint" s0))

/-- The call `strconv.ParseUint(s, 10, 64)`. -/
def ParseUint (s : String) : Nat × Option NumError :=
  if s = "" then (0, some (syntaxError "ParseUint" s))
  else ParseUint.loop s s.toList 0

/-- The call `strconv.ParseInt(s, 10, 64)`. -/
def ParseInt (s0 : String) : Int × Option NumError :=
  match s0.toList with
  | [] => (0, some (syntaxError "ParseInt" s0))
  | c :: cs =>
    -- pick off the leading sign
    let neg : Bool := c = '-'
    let s : String := if c = '+' ∨ c = '-' then String.mk cs else s0
    match ParseUint s with
    | (_, some ⟨_, _, .ErrSyntax⟩) =>
      (0, some ⟨"ParseInt", s0, .ErrSyntax⟩)
    | (un, _) =>
      -- cutoff = 1 << 63
      if neg = false ∧ un ≥ 2 ^ 63 then
        ((2 ^ 63 - 1 : Int), some (rangeError "ParseInt" s0))
      else if neg = true ∧ un > 2 ^ 63 then
        (-(2 ^ 63 : Int), some (rangeError "ParseInt" s0))
      else
        (if neg then -(un : Int) else (un : Int), none)

/-- What the decoder needs from the platform it runs on: the width of `int`
and `uint`, `strconv.ParseFloat(s, 64)` (the bit pattern of the parsed
`float64`, or the error), and the conversion `float32(x)`. -/
structure Platform where
  IntSize : Nat
  IntSize_ok : IntSize = 32 ∨ IntSize = 64
  ParseFloat : String → Nat × Option NumError
  toFloat32 : Nat → Nat

/-- Conversion of an `int64` to a signed integer type of `bits` bits
(two's-complement truncation). -/
def wrapInt (bits : Nat) (x : Int) : Int :=
  (x + 2 ^ (bits - 1)) % 2 ^ bits - 2 ^ (bits - 1)

/-- Conversion of a `uint64` to an unsigned integer type of `bits` bits. -/
def wrapUint (bits : Nat) (x : Nat) : Nat := x % 2 ^ bits

/-- The method `f.SetString(x)`: `mustBeAssignable` panics on an unexported
field, `mustBe(String)` on a field of another kind. -/
def Field.SetString (f : Field) (x : String) : Except Panic Field :=
  if f.exported = false then .error .unexported
  else
    match f.kind with
    | .String => .ok { f with val := .str x }
    | _ => .error .setter

/-- The method `f.SetInt(x)`: after `mustBeAssignable`, the value is
converted to the field's own integer type. -/
def Field.SetInt (P : Platform) (f : Field) (x : Int) : Except Panic Field :=
  if f.exported = false then .error .unexported
  else
    match f.kind with
    | .Int => .ok { f with val := .int (wrapInt P.IntSize x) }
    | .Int8 => .ok { f with val := .int (wrapInt 8 x) }
    | .Int16 => .ok { f with val := .int (wrapInt 16 x) }
    | .Int32 => .ok { f with val := .int (wrapInt 32 x) }
    | .Int64 => .ok { f with val := .int x }
    | _ => .error .setter

/-- The method `f.SetUint(x)`. -/
def Field.SetUint (P : Platform) (f : Field) (x : Nat) : Except Panic Field :=
  if f.exported = false then .error .unexported
  else
    match f.kind with
    | .Uint => .ok { f with val := .uint (wrapUint P.IntSize x) }
    | .Uintptr => .ok { f with val := .uint (wrapUint P.IntSize x) }
    | .Uint8 => .ok { f with val := .uint (wrapUint 8 x) }
    | .Uint16 => .ok { f with val := .uint (wrapUint 16 x) }
    | .Uint32 => .ok { f with val := .uint (wrapUint 32 x) }
    | .Uint64 => .ok { f with val := .uint x }
    | _ => .error .setter

/-- The method `f.SetFloat(x)`. -/
def Field.SetFloat (P : Platform) (f : Field) (x : Nat) : Except Panic Field :=
  if f.exported = false then .error .unexported
  else
    match f.kind with
    | .Float32 => .ok { f with val := .float (P.toFloat32 x) }
    | .Float64 => .ok { f with val := .float x }
    | _ => .error .setter

/-! ## errors, outcomes and the row reader -/

/-- Values of Go's `error` interface that can occur here: the two error types
of `csv.go`, strconv's `*NumError`, and what a `csv.Reader` may return
(`io.EOF`, a `*csv.ParseError`, any other error of the underlying reader). -/
inductive GoError
  | FieldMismatch (expected found : Nat)
  | UnsupportedType (kind : Kind)
  | NumError (e : NumError)
  | EOF
  | ParseError (StartLine Line Column : Nat) (Err : String)
  | other (msg : String)
  deriving DecidableEq, Repr

/-- How a call ends: it returns `nil`, returns a non-nil error, or panics. -/
inductive Outcome
  | nil
  | error (e : GoError)
  | panic (p : Panic)
  deriving DecidableEq, Repr

/-- A `*csv.Reader`: its state and the method `Read`, which returns
`(record, err)` and leaves the reader in a new state. -/
structure Reader where
  State : Type
  Read : State → (List String × Option GoError) × State

/-- What a call leaves behind: the return value, the reader and the target. -/
structure Result (σ : Type) where
  ret : Outcome
  reader : σ
  v : Struct

/-- Control flow at the end of one loop iteration: go on with the next one,
or leave the function. -/
inductive Flow
  | next (s : Struct)
  | ret (o : Outcome) (s : Struct)

/-! ## Unmarshal -/

/-- The body of the `for` loop of `Unmarshal` (lines 35-60) at index `i`. -/
def Unmarshal.body (P : Platform) (record : List String) (s : Struct) (i : Nat) : Flow :=
  match s[i]? with
  | none => .ret (.panic .fieldIndex) s
  | some f =>
    match f.kind with
    | .String =>
      match record[i]? with
      | none => .ret (.panic .sliceIndex) s
      | some c =>
        match f.SetString c with
        | .error p => .ret (.panic p) s
        | .ok f1 => .next (s.set i f1)
    | .Int | .Int8 | .Int16 | .Int32 | .Int64 =>
      match record[i]? with
      | none => .ret (.panic .sliceIndex) s
      | some c =>
        match ParseInt c with
        | (_, some err) => .ret (.error (.NumError err)) s
        | (ival, none) =>
          match f.SetInt P ival with
          | .error p => .ret (.panic p) s
          | .ok f1 => .next (s.set i f1)
    | .Uint | .Uint8 | .Uint16 | .Uint32 | .Uint64 =>
      match record[i]? with
      | none => .ret (.panic .sliceIndex) s
      | some c =>
        match ParseUint c with
        | (_, some err) => .ret (.error (.NumError err)) s
        | (ival, none) =>
          match f.SetUint P ival with
          | .error p => .ret (.panic p) s
          | .ok f1 => .next (s.set i f1)
    | .Float32 | .Float64 =>
      match record[i]? with
      | none => .ret (.panic .sliceIndex) s
      | some c =>
        match P.ParseFloat c with
        | (_, some err) => .ret (.error (.NumError err)) s
        | (ival, none) =>
          match f.SetFloat P ival with
          | .error p => .ret (.panic p) s
          | .ok f1 => .next (s.set i f1)
    | k => .ret (.error (.UnsupportedType k)) s

/-- The loop `for i := 0; i < s.NumField(); i++` of `Unmarshal`: the first
argument counts the iterations still to run, `s.NumField() - i`. -/
def Unmarshal.loop (P : Platform) (record : List String) : Nat → Nat → Struct → Outcome × Struct
  | 0, _, s => (.nil, s)
  | left + 1, i, s =>
    match Unmarshal.body P record s i with
    | .next s1 => Unmarshal.loop P record left (i + 1) s1
    | .ret o s1 => (o, s1)

/-- The function `Unmarshal(reader, v)`. -/
def Unmarshal (P : Platform) (R : Reader) (reader : R.State) (v : Struct) : Result R.State :=
  match R.Read reader with
  | ((_, some err), reader1) => ⟨.error err, reader1, v⟩
  | ((record, none), reader1) =>
    if v.NumField ≠ record.length then
      ⟨.error (.FieldMismatch v.NumField record.length), reader1, v⟩
    else
      match Unmarshal.loop P record v.NumField 0 v with
      | (o, v1) => ⟨o, reader1, v1⟩

/-! ## UnmarshalFieldsByIndex -/

/-- The body of the `range` loop of `UnmarshalFieldsByIndex` (lines 81-105)
for the index `i`, a Go `int`. -/
def UnmarshalFieldsByIndex.body (P : Platform) (record : List String) (s : Struct) (i : Int) : Flow :=
  if i < 0 ∨ (s.NumField : Int) ≤ i then .ret (.panic .fieldIndex) s
  else
    match s[i.toNat]? with
    | none => .ret (.panic .fieldIndex) s
    | some f =>
      match f.kind with
      | .String =>
        match record[i.toNat]? with
        | none => .ret (.panic .sliceIndex) s
        | some c =>
          match f.SetString c with
          | .error p => .ret (.panic p) s
          | .ok f1 => .next (s.set i.toNat f1)
      | .Int | .Int8 | .Int16 | .Int32 | .Int64 =>
        match record[i.toNat]? with
        | none => .ret (.panic .sliceIndex) s
        | some c =>
          match ParseInt c with
          | (_, some err) => .ret (.error (.NumError err)) s
          | (ival, none) =>
            match f.SetInt P ival with
            | .error p => .ret (.panic p) s
            | .ok f1 => .next (s.set i.toNat f1)
      | .Uint | .Uint8 | .Uint16 | .Uint32 | .Uint64 =>
        match record[i.toNat]? with
        | none => .ret (.panic .sliceIndex) s
        | some c =>
          match ParseUint c with
          | (_, some err) => .ret (.error (.NumError err)) s
          | (ival, none) =>
            match f.SetUint P ival with
            | .error p => .ret (.panic p) s
            | .ok f1 => .next (s.set i.toNat f1)
      | .Float32 | .Float64 =>
        match record[i.toNat]? with
        | none => .ret (.panic .sliceIndex) s
        | some c =>
          match P.ParseFloat c with
          | (_, some err) => .ret (.error (.NumError err)) s
          | (ival, none) =>
            match f.SetFloat P ival with
            | .error p => .ret (.panic p) s
            | .ok f1 => .next (s.set i.toNat f1)
      | k => .ret (.error (.UnsupportedType k)) s

/-- The loop `for _, i := range indices` of `UnmarshalFieldsByIndex`. -/
def UnmarshalFieldsByIndex.loop (P : Platform) (record : List String) : List Int → Struct → Outcome × Struct
  | [], s => (.nil, s)
  | i :: rest, s =>
    match UnmarshalFieldsByIndex.body P record s i with
    | .next s1 => UnmarshalFieldsByIndex.loop P record rest s1
    | .ret o s1 => (o, s1)

/-- The function `UnmarshalFieldsByIndex(reader, v, indices...)`. -/
def UnmarshalFieldsByIndex (P : Platform) (R : Reader) (reader : R.State) (v : Struct)
    (indices : List Int) : Result R.State :=
  if indices.length = 0 then Unmarshal P R reader v
  else
    match R.Read reader with
    | ((_, some err), reader1) => ⟨.error err, reader1, v⟩
    | ((record, none), reader1) =>
      if v.NumField ≠ record.length then
        ⟨.error (.FieldMismatch v.NumField record.length), reader1, v⟩
      else if indices.length > record.length then
        ⟨.nil, reader1, v⟩
      else
        match UnmarshalFieldsByIndex.loop P record indices v with
        | (o, v1) => ⟨o, reader1, v1⟩

/-! ## vocabulary of the specification -/

/-- The kinds the decoder supports: text, signed integers, unsigned integers
and floating point (the four `case` lists of the type switch). -/
def supported (k : Kind) : Bool :=
  match k with
  | .String => true
  | .Int | .Int8 | .Int16 | .Int32 | .Int64 => true
  | .Uint | .Uint8 | .Uint16 | .Uint32 | .Uint64 => true
  | .Float32 | .Float64 => true
  | _ => false

/-- The result of the type-directed parse of one cell. -/
inductive Parse
  | value (x : Val)
  | failure (e : NumError)
  | unsupported
  deriving DecidableEq, Repr

/-- The type-directed parse of a cell for a field of kind `k`: the cell
itself for text, the 64-bit result of strconv for the numeric kinds. -/
def parseCell (P : Platform) (k : Kind) (c : String) : Parse :=
  match k with
  | .String => .value (.str c)
  | .Int | .Int8 | .Int16 | .Int32 | .Int64 =>
    match ParseInt c with
    | (_, some e) => .failure e
    | (n, none) => .value (.int n)
  | .Uint | .Uint8 | .Uint16 | .Uint32 | .Uint64 =>
    match ParseUint c with
    | (_, some e) => .failure e
    | (n, none) => .value (.uint n)
  | .Float32 | .Float64 =>
    match P.ParseFloat c with
    | (_, some e) => .failure e
    | (x, none) => .value (.float x)
  | _ => .unsupported

/-- A cell is well-formed for a kind when its parse yields a value. -/
def wellFormed (P : Platform) (k : Kind) (c : String) : Bool :=
  match parseCell P k c with
  | .value _ => true
  | _ => false

/-- What a field of kind `k` holds after the parsed value `x` is assigned to
it: the value converted to the field's own width. -/
def stored (P : Platform) (k : Kind) (x : Val) : Val :=
  match k, x with
  | .Int, .int n => .int (wrapInt P.IntSize n)
  | .Int8, .int n => .int (wrapInt 8 n)
  | .Int16, .int n => .int (wrapInt 16 n)
  | .Int32, .int n => .int (wrapInt 32 n)
  | .Uint, .uint n => .uint (wrapUint P.IntSize n)
  | .Uint8, .uint n => .uint (wrapUint 8 n)
  | .Uint16, .uint n => .uint (wrapUint 16 n)
  | .Uint32, .uint n => .uint (wrapUint 32 n)
  | .Float32, .float b => .float (P.toFloat32 b)
  | _, x => x

/-- The width in bits of a field of an integer kind. -/
def bitsOf (P : Platform) (k : Kind) : Nat :=
  match k with
  | .Int | .Uint | .Uintptr => P.IntSize
  | .Int8 | .Uint8 => 8
  | .Int16 | .Uint16 => 16
  | .Int32 | .Uint32 => 32
  | _ => 64

/-- The parsed value fits the field: an integer lies in the range of the
field's width, a `float64` is unchanged by the conversion to a `float32`
field; text and 64-bit fields hold every value. -/
def fits (P : Platform) (k : Kind) (x : Val) : Prop :=
  match k, x with
  | .Float32, .float b => P.toFloat32 b = b
  | _, .int n => -(2 ^ (bitsOf P k - 1) : Int) ≤ n ∧ n < 2 ^ (bitsOf P k - 1)
  | _, .uint n => n < 2 ^ bitsOf P k
  | _, _ => True

instance fits.decidable (P : Platform) (k : Kind) (x : Val) : Decidable (fits P k x) := by
  unfold fits
  split <;> infer_instance

/-- The field `f` after cell `c` has been assigned to it; `f` itself when the
cell yields no value. -/
def assigned (P : Platform) (f : Field) (c : String) : Field :=
  match parseCell P f.kind c with
  | .value x => ⟨f.kind, stored P f.kind x, f.exported⟩
  | _ => f

/-- The decoder passes field `f` with cell `c`: the field is settable and the
cell is well-formed for its kind. -/
def passes (P : Platform) (f : Field) (c : String) : Bool :=
  f.exported && wellFormed P f.kind c

/-- The target after the assignment of cell `i` to field `i`; unchanged when
there is no such field or cell. -/
def assign (P : Platform) (record : List String) (s : Struct) (i : Int) : Struct :=
  if 0 ≤ i then
    match s[i.toNat]?, record[i.toNat]? with
    | some f, some c => s.set i.toNat (assigned P f c)
    | _, _ => s
  else s

/-- One loop iteration as the specification describes it: parse cell `i` for
field `i`; assign on success, leave the function on failure.  Assigning to a
field that is not settable aborts the call. -/
def step (P : Platform) (s : Struct) (i : Nat) (f : Field) (c : String) : Flow :=
  match parseCell P f.kind c with
  | .value x =>
    if f.exported = true then .next (s.set i ⟨f.kind, stored P f.kind x, f.exported⟩)
    else .ret (.panic .unexported) s
  | .failure e => .ret (.error (.NumError e)) s
  | .unsupported => .ret (.error (.UnsupportedType f.kind)) s

/-! ## concrete platform and reader for evaluating the decoder -/

/-- A reader over rows that are already split: `Read` hands out the next row,
and `io.EOF` once none is left. -/
def sliceReader : Reader where
  State := List (List String)
  Read
    | [] => (([], some .EOF), [])
    | r :: rs => ((r, none), rs)

/-- A 64-bit platform for evaluating the decoder on records of text and
integer fields.  Its `ParseFloat` knows no number at all: it reports
`ErrSyntax` for every cell, so it stands for the real one only where no
floating-point field is decoded. -/
def intOnly64 : Platform where
  IntSize := 64
  IntSize_ok := Or.inr rfl
  ParseFloat s := (0, some (syntaxError "ParseFloat" s))
  toFloat32 x := x

/-- The outcome with which an iteration leaves the function when the decoder
does not pass the field: the parse failure of the cell, the unsupported kind
of the field, or, for a well-formed cell, the panic of the setter on a field
that is not settable. -/
def stopOutcome (P : Platform) (f : Field) (c : String) : Outcome :=
  match parseCell P f.kind c with
  | .failure e => .error (.NumError e)
  | .unsupported => .error (.UnsupportedType f.kind)
  | .value _ => .panic .unexported

/-- Field `i` of `s`, an exported field, holds the parsed value `x` as a field
of kind `k` does: converted to the field's own width, and so `x` itself
whenever `x` fits. -/
def holdsParsed (P : Platform) (s : Struct) (i : Nat) (k : Kind) (x : Val) : Prop :=
  s[i]? = some ⟨k, stored P k x, true⟩ ∧ (fits P k x → s[i]? = some ⟨k, x, true⟩)

instance holdsParsed.decidable (P : Platform) (s : Struct) (i : Nat) (k : Kind) (x : Val) :
    Decidable (holdsParsed P s i k x) := by
  unfold holdsParsed
  infer_instance

/-- The record `{Name: text, Age: signed-integer}` before decoding. -/
def person : Struct := [⟨.String, .str "", true⟩, ⟨.Int, .int 0, true⟩]

/-- A record of three fields: text, `int`, `uint8`. -/
def triple : Struct :=
  [⟨.String, .str "a", true⟩, ⟨.Int, .int 1, true⟩, ⟨.Uint8, .uint 2, true⟩]

/-- A record whose first field is an `int8`: `{A: int8, B: int}`. -/
def narrow : Struct := [⟨.Int8, .int 0, true⟩, ⟨.Int, .int 0, true⟩]

/-- A record with a field of an unsupported kind: `{Name: string, Ok: bool, Age: int}`. -/
def flagged : Struct :=
  [⟨.String, .str "", true⟩, ⟨.Bool, .other 0, true⟩, ⟨.Int, .int 0, true⟩]

/-- A record with one unexported field: `struct{ name string }`. -/
def hidden : Struct := [⟨.String, .str "", false⟩]

/-- The full ascending index list `[0, 1, ..., n-1]`. -/
def allIndices (n : Nat) : List Int := (List.range n).map Int.ofNat

/-- The failures with which a loop iteration may leave the function: an
unsupported field type, or a cell parse failure. -/
def LoopFailure (o : Outcome) : Prop :=
  (∃ k, supported k = false ∧ o = .error (.UnsupportedType k)) ∨
  (∃ e, o = .error (.NumError e))

/-- The endings the specification allows for a call on a record of `n` fields
whose `Read` returned `read`: success, or exactly one of the row-source
failure (the reader's own error), the field-count mismatch, the unsupported
field type and the cell parse failure.  The side conditions make the five
cases exclude one another. -/
def Regular (read : List String × Option GoError) (n : Nat) (o : Outcome) : Prop :=
  o = .nil ∨
  (∃ e, read.2 = some e ∧ o = .error e) ∨
  (read.2 = none ∧ n ≠ read.1.length ∧ o = .error (.FieldMismatch n read.1.length)) ∨
  (read.2 = none ∧ n = read.1.length ∧ LoopFailure o)

/-- The cell at position `a` is well-formed for the field at position `a`
(false when there is no such field or cell). -/
def goodAt (P : Platform) (v : Struct) (row : List String) (a : Int) : Bool :=
  match v[a.toNat]?, row[a.toNat]? with
  | some f, some c => wellFormed P f.kind c
  | _, _ => false

/-- The decoder passes position `a`: there are a field and a cell at that
position, the field is settable and the cell is well-formed for it. -/
def passAt (P : Platform) (v : Struct) (row : List String) (a : Int) : Bool :=
  match v[a.toNat]?, row[a.toNat]? with
  | some f, some c => passes P f c
  | _, _ => false

/-- The field at position `a` is settable (false when there is no such
field). -/
def settableAt (v : Struct) (a : Int) : Bool :=
  match v[a.toNat]? with
  | some f => f.exported
  | none => false

/-- The declared width of the signed integer kinds narrower than 64 bits. -/
def signedWidth (k : Kind) : Option Nat :=
  match k with
  | .Int8 => some 8
  | .Int16 => some 16
  | .Int32 => some 32
  | _ => none

/-- The declared width of the unsigned integer kinds narrower than 64 bits. -/
def unsignedWidth (k : Kind) : Option Nat :=
  match k with
  | .Uint8 => some 8
  | .Uint16 => some 16
  | .Uint32 => some 32
  | _ => none

/-- A record of one `int8` field. -/
def tiny : Struct := [⟨.Int8, .int 0, true⟩]

/-- An ASCII decimal digit. -/
def isDigit (c : Char) : Bool := decide ('0' ≤ c ∧ c ≤ '9')

/-- The number written by the decimal digits `cs` placed after the number `n`
(most significant digit first). -/
def digitsAcc (n : Nat) (cs : List Char) : Nat :=
  cs.foldl (fun m c => m * 10 + (c.toNat - '0'.toNat)) n

/-- The number written by a sequence of decimal digits. -/
def digitsValue (cs : List Char) : Nat := digitsAcc 0 cs

/-- A well-formed base-10 unsigned integer is one or more decimal digits; its
value, when the cell is one. -/
def decimalNat (s : String) : Option Nat :=
  if s.toList ≠ [] ∧ s.toList.all isDigit = true then some (digitsValue s.toList) else none

/-- The cell is a well-formed base-10 unsigned integer within the 64-bit
unsigned range. -/
def inUint64 (s : String) : Bool :=
  match decimalNat s with
  | some n => decide (n < 2 ^ 64)
  | none => false

/-- The character of the decimal digit `d`. -/
def digitChar (d : Nat) : Char := Char.ofNat (d + '0'.toNat)

/-- The decimal digits of `n`, most significant first, put in front of `acc`;
the first argument bounds the number of digits produced. -/
def formatDigits : Nat → Nat → List Char → List Char
  | 0, _, acc => acc
  | fuel + 1, n, acc =>
    if n / 10 = 0 then digitChar (n % 10) :: acc
    else formatDigits fuel (n / 10) (digitChar (n % 10) :: acc)

/-- The function `strconv.Itoa`: the decimal rendering of an `int`. -/
def Itoa (i : Int) : String :=
  if i < 0 then String.mk ('-' :: formatDigits ((-i).toNat + 1) (-i).toNat [])
  else String.mk (formatDigits (i.toNat + 1) i.toNat [])

/-- The method `(e *FieldMismatch) Error()`. -/
def FieldMismatch.Error (expected found : Nat) : String :=
  "CSV line fields mismatch. Expected " ++ Itoa (expected : Int) ++ " found "
    ++ Itoa (found : Int)

/-- Reads the pair `(expected, found)` back from the message of a
`FieldMismatch`: the digits after the 35 characters of the heading, and the
digits after the 7 characters of `" found "`. -/
def readMismatch (msg : String) : Nat × Nat :=
  let rest := msg.toList.drop 35
  (digitsValue (rest.takeWhile isDigit),
   digitsValue ((rest.dropWhile isDigit).drop 7))

/-! ## one iteration -/

theorem Unmarshal_body_eq_step (P : Platform) (record : List String) (s : Struct) (i : Nat)
    (f : Field) (c : String) (hf : s[i]? = some f) (hc : record[i]? = some c) :
    Unmarshal.body P record s i = step P s i f c := by
  obtain ⟨k, x, b⟩ := f
  unfold Unmarshal.body step parseCell
  rw [hf]
  cases b <;> cases k <;>
    simp only [hc, Field.SetString, Field.SetInt, Field.SetUint, Field.SetFloat, stored]
  all_goals first
    | rfl
    | (rcases ParseInt c with ⟨n, _ | e⟩ <;> rfl)
    | (rcases ParseUint c with ⟨n, _ | e⟩ <;> rfl)
    | (rcases P.ParseFloat c with ⟨n, _ | e⟩ <;> rfl)

theorem ByIndex_body_eq_step (P : Platform) (record : List String) (s : Struct)
    (i : Nat) (f : Field) (c : String) (hf : s[i]? = some f) (hc : record[i]? = some c) :
    UnmarshalFieldsByIndex.body P record s (i : Int) = step P s i f c := by
  obtain ⟨k, x, b⟩ := f
  have hi : i < s.length := by
    rcases Nat.lt_or_ge i s.length with h | h
    · exact h
    · rw [List.getElem?_eq_none h] at hf; cases hf
  have hguard : ¬ ((i : Int) < 0 ∨ ((Struct.NumField s : Nat) : Int) ≤ (i : Int)) := by
    unfold Struct.NumField; omega
  unfold UnmarshalFieldsByIndex.body step parseCell
  rw [if_neg hguard]
  simp only [Int.toNat_ofNat, hf]
  cases b <;> cases k <;>
    simp only [hc, Field.SetString, Field.SetInt, Field.SetUint, Field.SetFloat, stored]
  all_goals first
    | rfl
    | (rcases ParseInt c with ⟨n, _ | e⟩ <;> rfl)
    | (rcases ParseUint c with ⟨n, _ | e⟩ <;> rfl)
    | (rcases P.ParseFloat c with ⟨n, _ | e⟩ <;> rfl)

theorem ByIndex_body_out_of_range (P : Platform) (record : List String)
    (s : Struct) (i : Int) (h : i < 0 ∨ (s.length : Int) ≤ i) :
    UnmarshalFieldsByIndex.body P record s i = .ret (.panic .fieldIndex) s := by
  unfold UnmarshalFieldsByIndex.body
  rw [if_pos (by unfold Struct.NumField; exact h)]

theorem step_value (P : Platform) (s : Struct) (i : Nat) (f : Field) (c : String) (x : Val)
    (h : parseCell P f.kind c = .value x) (hexp : f.exported = true) :
    step P s i f c = .next (s.set i (assigned P f c)) := by
  simp [step, assigned, h, hexp]

theorem assigned_kind (P : Platform) (f : Field) (c : String) :
    (assigned P f c).kind = f.kind := by
  unfold assigned
  cases parseCell P f.kind c <;> rfl

theorem assigned_exported (P : Platform) (f : Field) (c : String) :
    (assigned P f c).exported = f.exported := by
  unfold assigned
  cases parseCell P f.kind c <;> rfl

theorem assigned_of_value (P : Platform) (f : Field) (c : String) (x : Val)
    (h : parseCell P f.kind c = .value x) :
    assigned P f c = ⟨f.kind, stored P f.kind x, f.exported⟩ := by
  simp [assigned, h]

theorem assigned_idem (P : Platform) (f : Field) (c : String) :
    assigned P (assigned P f c) c = assigned P f c := by
  cases h : parseCell P f.kind c with
  | value x =>
    have h1 := assigned_of_value P f c x h
    rw [h1]
    exact assigned_of_value P ⟨f.kind, stored P f.kind x, f.exported⟩ c x h
  | failure e => simp [assigned, h]
  | unsupported => simp [assigned, h]

theorem wellFormed_iff (P : Platform) (k : Kind) (c : String) :
    wellFormed P k c = true ↔ ∃ x, parseCell P k c = .value x := by
  unfold wellFormed
  cases parseCell P k c <;> simp

theorem passes_iff (P : Platform) (f : Field) (c : String) :
    passes P f c = true ↔ f.exported = true ∧ ∃ x, parseCell P f.kind c = .value x := by
  unfold passes
  rw [Bool.and_eq_true, wellFormed_iff]

theorem passes_of (P : Platform) (f : Field) (c : String) (he : f.exported = true)
    (hw : wellFormed P f.kind c = true) : passes P f c = true := by
  unfold passes
  rw [he, hw]
  rfl

theorem passes_false_of (P : Platform) (f : Field) (c : String)
    (hw : wellFormed P f.kind c = false) : passes P f c = false := by
  unfold passes
  rw [hw, Bool.and_false]

theorem step_stop (P : Platform) (s : Struct) (i : Nat) (f : Field) (c : String)
    (h : passes P f c = false) :
    step P s i f c = .ret (stopOutcome P f c) s := by
  unfold passes wellFormed at h
  unfold step stopOutcome
  cases hp : parseCell P f.kind c with
  | value x =>
    rw [hp] at h
    have he : f.exported = false := by simpa using h
    simp [he]
  | failure e => rfl
  | unsupported => rfl

theorem stopOutcome_ne_nil (P : Platform) (f : Field) (c : String) :
    stopOutcome P f c ≠ .nil := by
  unfold stopOutcome
  cases parseCell P f.kind c <;> simp

theorem getElem?_some_of_lt {α : Type} (l : List α) (i : Nat) (h : i < l.length) :
    ∃ a, l[i]? = some a := ⟨l[i], List.getElem?_eq_getElem h⟩

theorem lt_of_getElem?_some {α : Type} (l : List α) (i : Nat) (a : α) (h : l[i]? = some a) :
    i < l.length := by
  rcases Nat.lt_or_ge i l.length with h1 | h1
  · exact h1
  · rw [List.getElem?_eq_none h1] at h; cases h

/-! ## the loop of Unmarshal -/

theorem Unmarshal_loop_good (P : Platform) (record : List String) :
    ∀ (left i : Nat) (s : Struct), i + left = s.length → record.length = s.length →
      (∀ j f c, i ≤ j → s[j]? = some f → record[j]? = some c → passes P f c = true) →
      ∃ s1, Unmarshal.loop P record left i s = (.nil, s1) ∧ s1.length = s.length ∧
        (∀ j, j < i → s1[j]? = s[j]?) ∧
        (∀ j f c, i ≤ j → s[j]? = some f → record[j]? = some c →
          s1[j]? = some (assigned P f c)) := by
  intro left
  induction left with
  | zero =>
    intro i s hi _ _
    refine ⟨s, rfl, rfl, fun _ _ => rfl, ?_⟩
    intro j f c hij hf _
    have := lt_of_getElem?_some s j f hf
    omega
  | succ left ih =>
    intro i s hi hlen hgood
    obtain ⟨f, hf⟩ := getElem?_some_of_lt s i (by omega)
    obtain ⟨c, hc⟩ := getElem?_some_of_lt record i (by omega)
    obtain ⟨hexp, x, hx⟩ := (passes_iff P f c).1 (hgood i f c (Nat.le_refl i) hf hc)
    have hbody : Unmarshal.body P record s i = .next (s.set i (assigned P f c)) := by
      rw [Unmarshal_body_eq_step P record s i f c hf hc, step_value P s i f c x hx hexp]
    have hset : ∀ j, j ≠ i → (s.set i (assigned P f c))[j]? = s[j]? := by
      intro j hj
      rw [List.getElem?_set_ne (Ne.symm hj)]
    obtain ⟨s1, hloop, hl1, hlow, hhigh⟩ := ih (i + 1) (s.set i (assigned P f c))
      (by rw [List.length_set]; omega) (by rw [List.length_set]; exact hlen)
      (by
        intro j g d hij hg hd
        rw [hset j (by omega)] at hg
        exact hgood j g d (by omega) hg hd)
    refine ⟨s1, ?_, ?_, ?_, ?_⟩
    · simp only [Unmarshal.loop, hbody]; exact hloop
    · rw [hl1, List.length_set]
    · intro j hj
      rw [hlow j (by omega), hset j (by omega)]
    · intro j g d hij hg hd
      rcases Nat.eq_or_lt_of_le hij with heq | hlt
      · subst heq
        rw [hf] at hg; rw [hc] at hd
        cases hg; cases hd
        rw [hlow i (by omega), List.getElem?_set_self (lt_of_getElem?_some s i _ hf)]
      · exact hhigh j g d hlt (by rw [hset j (by omega)]; exact hg) hd

theorem Unmarshal_loop_stop (P : Platform) (record : List String) (m : Nat) (fm : Field)
    (cm : String) (hcm : record[m]? = some cm) (hbad : passes P fm cm = false) :
    ∀ (left i : Nat) (s : Struct), i + left = s.length → record.length = s.length →
      i ≤ m → s[m]? = some fm →
      (∀ j f c, i ≤ j → j < m → s[j]? = some f → record[j]? = some c →
        passes P f c = true) →
      ∃ s1, Unmarshal.loop P record left i s = (stopOutcome P fm cm, s1) ∧
        s1.length = s.length ∧
        (∀ j, j < i ∨ m ≤ j → s1[j]? = s[j]?) ∧
        (∀ j f c, i ≤ j → j < m → s[j]? = some f → record[j]? = some c →
          s1[j]? = some (assigned P f c)) := by
  intro left
  induction left with
  | zero =>
    intro i s hi _ him hfm _
    have := lt_of_getElem?_some s m fm hfm
    omega
  | succ left ih =>
    intro i s hi hlen him hfm hgood
    rcases Nat.eq_or_lt_of_le him with heq | hlt
    · subst heq
      refine ⟨s, ?_, rfl, fun _ _ => rfl, ?_⟩
      · simp only [Unmarshal.loop, Unmarshal_body_eq_step P record s i fm cm hfm hcm,
          step_stop P s i fm cm hbad]
      · intro j f c h1 h2; omega
    · obtain ⟨f, hf⟩ := getElem?_some_of_lt s i (by omega)
      obtain ⟨c, hc⟩ := getElem?_some_of_lt record i (by omega)
      obtain ⟨hexp, x, hx⟩ := (passes_iff P f c).1 (hgood i f c (Nat.le_refl i) hlt hf hc)
      have hbody : Unmarshal.body P record s i = .next (s.set i (assigned P f c)) := by
        rw [Unmarshal_body_eq_step P record s i f c hf hc, step_value P s i f c x hx hexp]
      have hset : ∀ j, j ≠ i → (s.set i (assigned P f c))[j]? = s[j]? := by
        intro j hj
        rw [List.getElem?_set_ne (Ne.symm hj)]
      obtain ⟨s1, hloop, hl1, hout, hin⟩ := ih (i + 1) (s.set i (assigned P f c))
        (by rw [List.length_set]; omega) (by rw [List.length_set]; exact hlen)
        (by omega) (by rw [hset m (by omega)]; exact hfm)
        (by
          intro j g d hij hjm hg hd
          rw [hset j (by omega)] at hg
          exact hgood j g d (by omega) hjm hg hd)
      refine ⟨s1, ?_, ?_, ?_, ?_⟩
      · simp only [Unmarshal.loop, hbody]; exact hloop
      · rw [hl1, List.length_set]
      · intro j hj
        rw [hout j (by omega), hset j (by omega)]
      · intro j g d hij hjm hg hd
        rcases Nat.eq_or_lt_of_le hij with heq | hlt2
        · subst heq
          rw [hf] at hg; rw [hc] at hd
          cases hg; cases hd
          rw [hout i (by omega), List.getElem?_set_self (lt_of_getElem?_some s i _ hf)]
        · exact hin j g d hlt2 hjm (by rw [hset j (by omega)]; exact hg) hd

/-! ## the loop of UnmarshalFieldsByIndex -/

theorem ByIndex_body_cases (P : Platform) (record : List String) (s : Struct)
    (i : Int) :
    (∃ o, o ≠ Outcome.nil ∧ UnmarshalFieldsByIndex.body P record s i = .ret o s) ∨
    (∃ f c, 0 ≤ i ∧ s[i.toNat]? = some f ∧ record[i.toNat]? = some c ∧
      passes P f c = true ∧
      UnmarshalFieldsByIndex.body P record s i = .next (s.set i.toNat (assigned P f c))) := by
  by_cases hr : i < 0 ∨ (s.length : Int) ≤ i
  · left
    exact ⟨.panic .fieldIndex, by simp, ByIndex_body_out_of_range P record s i hr⟩
  · have h0 : 0 ≤ i := by omega
    obtain ⟨n, rfl⟩ := Int.eq_ofNat_of_zero_le h0
    have hn : n < s.length := by omega
    obtain ⟨f, hf⟩ := getElem?_some_of_lt s n hn
    cases hc : record[n]? with
    | none =>
      left
      obtain ⟨k, x, b⟩ := f
      have hguard : ¬ ((n : Int) < 0 ∨ ((Struct.NumField s : Nat) : Int) ≤ (n : Int)) := by
        unfold Struct.NumField; omega
      unfold UnmarshalFieldsByIndex.body
      rw [if_neg hguard]
      simp only [Int.toNat_ofNat, hf]
      cases k <;> simp only [hc] <;> exact ⟨_, by simp, rfl⟩
    | some c =>
      rw [ByIndex_body_eq_step P record s n f c hf hc]
      cases hw : passes P f c with
      | false =>
        left
        exact ⟨stopOutcome P f c, stopOutcome_ne_nil P f c, step_stop P s n f c hw⟩
      | true =>
        right
        obtain ⟨hexp, x, hx⟩ := (passes_iff P f c).1 hw
        exact ⟨f, c, h0, by simpa using hf, by simpa using hc, hw,
          by simpa using step_value P s n f c x hx hexp⟩

theorem assign_of_body_next (P : Platform) (record : List String) (s : Struct) (i : Int)
    (f : Field) (c : String) (h0 : 0 ≤ i) (hf : s[i.toNat]? = some f)
    (hc : record[i.toNat]? = some c) :
    assign P record s i = s.set i.toNat (assigned P f c) := by
  unfold assign
  rw [if_pos h0, hf, hc]

theorem ByIndex_loop_frame (P : Platform) (record : List String) :
    ∀ (indices : List Int) (s : Struct),
      (UnmarshalFieldsByIndex.loop P record indices s).2.length = s.length ∧
      ∀ j : Nat, (j : Int) ∉ indices →
        (UnmarshalFieldsByIndex.loop P record indices s).2[j]? = s[j]? := by
  intro indices
  induction indices with
  | nil => intro s; exact ⟨rfl, fun _ _ => rfl⟩
  | cons i rest ih =>
    intro s
    rcases ByIndex_body_cases P record s i with
      ⟨o, _, hb⟩ | ⟨f, c, h0, hf, hc, _, hb⟩
    · have hl : UnmarshalFieldsByIndex.loop P record (i :: rest) s = (o, s) := by
        simp only [UnmarshalFieldsByIndex.loop, hb]
      rw [hl]
      exact ⟨rfl, fun _ _ => rfl⟩
    · have hl0 : UnmarshalFieldsByIndex.loop P record (i :: rest) s
          = UnmarshalFieldsByIndex.loop P record rest (s.set i.toNat (assigned P f c)) := by
        simp only [UnmarshalFieldsByIndex.loop, hb]
      rw [hl0]
      obtain ⟨hl, hfr⟩ := ih (s.set i.toNat (assigned P f c))
      refine ⟨by rw [hl, List.length_set], ?_⟩
      intro j hj
      have hji : (j : Int) ≠ i := fun h => hj (by rw [h]; exact List.mem_cons_self _ _)
      have hjr : (j : Int) ∉ rest := fun h => hj (List.mem_cons_of_mem _ h)
      rw [hfr j hjr, List.getElem?_set_ne]
      intro h
      apply hji
      rw [← h]
      exact Int.toNat_of_nonneg h0

theorem ByIndex_loop_fold (P : Platform) (record : List String) :
    ∀ (indices : List Int) (s : Struct),
      ∃ m, m ≤ indices.length ∧
        (UnmarshalFieldsByIndex.loop P record indices s).2
          = (indices.take m).foldl (assign P record) s ∧
        ((UnmarshalFieldsByIndex.loop P record indices s).1 = .nil → m = indices.length) := by
  intro indices
  induction indices with
  | nil => intro s; exact ⟨0, Nat.le_refl 0, rfl, fun _ => rfl⟩
  | cons i rest ih =>
    intro s
    rcases ByIndex_body_cases P record s i with
      ⟨o, ho, hb⟩ | ⟨f, c, h0, hf, hc, _, hb⟩
    · refine ⟨0, Nat.zero_le _, ?_, ?_⟩
      · simp only [UnmarshalFieldsByIndex.loop, hb]; rfl
      · simp only [UnmarshalFieldsByIndex.loop, hb]
        intro h; exact absurd h ho
    · obtain ⟨m, hm, hfold, hnil⟩ := ih (s.set i.toNat (assigned P f c))
      refine ⟨m + 1, by simp only [List.length_cons]; omega, ?_, ?_⟩
      · simp only [UnmarshalFieldsByIndex.loop, hb, List.take_succ_cons, List.foldl_cons]
        rw [assign_of_body_next P record s i f c h0 hf hc]
        exact hfold
      · simp only [UnmarshalFieldsByIndex.loop, hb, List.length_cons]
        intro h
        rw [hnil h]

theorem ByIndex_loop_nil (P : Platform) (record : List String) :
    ∀ (indices : List Int) (s s1 : Struct),
      UnmarshalFieldsByIndex.loop P record indices s = (.nil, s1) →
      ∀ i ∈ indices, 0 ≤ i ∧ ∃ f c, s[i.toNat]? = some f ∧ record[i.toNat]? = some c ∧
        passes P f c = true ∧ s1[i.toNat]? = some (assigned P f c) := by
  intro indices
  induction indices with
  | nil => intro s s1 _ i hi; cases hi
  | cons i0 rest ih =>
    intro s s1 hloop i hi
    rcases ByIndex_body_cases P record s i0 with
      ⟨o, ho, hb⟩ | ⟨f, c, h0, hf, hc, hw, hb⟩
    · simp only [UnmarshalFieldsByIndex.loop, hb] at hloop
      exact absurd (congrArg Prod.fst hloop) ho
    · simp only [UnmarshalFieldsByIndex.loop, hb] at hloop
      have hn : i0.toNat < s.length := lt_of_getElem?_some s _ f hf
      by_cases hir : i ∈ rest
      · obtain ⟨hi0, g, d, hg, hd, hwg, hs1⟩ := ih _ s1 hloop i hir
        refine ⟨hi0, ?_⟩
        by_cases heq : i.toNat = i0.toNat
        · rw [heq] at hg hd hs1 ⊢
          rw [List.getElem?_set_self hn] at hg
          rw [hc] at hd
          cases hg; cases hd
          refine ⟨f, c, hf, hc, hw, ?_⟩
          rw [hs1, assigned_idem]
        · rw [List.getElem?_set_ne (Ne.symm heq)] at hg
          exact ⟨g, d, hg, hd, hwg, hs1⟩
      · have hii : i = i0 := by
          rcases List.mem_cons.1 hi with h | h
          · exact h
          · exact absurd h hir
        subst hii
        refine ⟨h0, f, c, hf, hc, hw, ?_⟩
        have hfr := (ByIndex_loop_frame P record rest
          (s.set i.toNat (assigned P f c))).2 i.toNat
          (by rw [Int.toNat_of_nonneg h0]; exact hir)
        rw [hloop] at hfr
        rw [hfr, List.getElem?_set_self hn]

/-! ## the two functions in terms of their loops -/

theorem Unmarshal_eq_loop (P : Platform) (R : Reader) (reader reader1 : R.State) (v : Struct)
    (record : List String) (hread : R.Read reader = ((record, none), reader1))
    (hlen : record.length = v.NumField) :
    Unmarshal P R reader v
      = ⟨(Unmarshal.loop P record v.NumField 0 v).1, reader1,
         (Unmarshal.loop P record v.NumField 0 v).2⟩ := by
  unfold Unmarshal
  rw [hread]
  simp only [ne_eq, hlen, not_true_eq_false, if_false]

theorem ByIndex_eq_loop (P : Platform) (R : Reader) (reader reader1 : R.State) (v : Struct)
    (record : List String) (indices : List Int)
    (hread : R.Read reader = ((record, none), reader1))
    (hlen : record.length = v.NumField) (hne : indices ≠ [])
    (hle : indices.length ≤ record.length) :
    UnmarshalFieldsByIndex P R reader v indices
      = ⟨(UnmarshalFieldsByIndex.loop P record indices v).1, reader1,
         (UnmarshalFieldsByIndex.loop P record indices v).2⟩ := by
  unfold UnmarshalFieldsByIndex
  have h0 : indices.length ≠ 0 := fun h => hne (List.length_eq_zero.1 h)
  rw [if_neg h0, hread]
  simp only [ne_eq, hlen, not_true_eq_false, if_false]
  rw [if_neg (by rw [← hlen]; omega)]

theorem mem_zip_of_getElem? (v : Struct) (row : List String) (i : Nat) (f : Field)
    (c : String) (hf : v[i]? = some f) (hc : row[i]? = some c) : (f, c) ∈ v.zip row :=
  List.getElem?_mem (List.getElem?_zip_eq_some.2 ⟨hf, hc⟩)

theorem mem_take_of_getElem? {α : Type} (l : List α) (m i : Nat) (a : α) (him : i < m)
    (h : l[i]? = some a) : a ∈ l.take m := by
  apply List.getElem?_mem (n := i)
  rw [List.getElem?_take_of_lt him]
  exact h

theorem mem_take_zip_of_getElem? (v : Struct) (row : List String) (m i : Nat) (f : Field)
    (c : String) (him : i < m) (hf : v[i]? = some f) (hc : row[i]? = some c) :
    (f, c) ∈ (v.zip row).take m := by
  apply List.getElem?_mem (n := i)
  rw [List.getElem?_take_of_lt him]
  exact List.getElem?_zip_eq_some.2 ⟨hf, hc⟩

theorem wrapInt_of_fits (bits : Nat) (x : Int) (hb : 0 < bits)
    (hlo : -(2 ^ (bits - 1) : Int) ≤ x) (hhi : x < 2 ^ (bits - 1)) : wrapInt bits x = x := by
  unfold wrapInt
  have h2 : (2 : Int) ^ bits = 2 * 2 ^ (bits - 1) := by
    obtain ⟨b, rfl⟩ : ∃ b, bits = b + 1 := ⟨bits - 1, by omega⟩
    simp [pow_succ, mul_comm]
  rw [Int.emod_eq_of_lt (by omega) (by omega)]
  omega

theorem IntSize_pos (P : Platform) : 0 < P.IntSize := by
  rcases P.IntSize_ok with h | h <;> omega

theorem stored_of_fits (P : Platform) (k : Kind) (x : Val) (h : fits P k x) :
    stored P k x = x := by
  have hp := IntSize_pos P
  cases x with
  | str s => cases k <;> rfl
  | other t => cases k <;> rfl
  | float b =>
    cases k <;> first
      | rfl
      | (simp only [fits] at h; simp only [stored, h])
  | int n =>
    cases k <;> first
      | rfl
      | (simp only [fits, bitsOf] at h
         simp only [stored]
         rw [wrapInt_of_fits _ n (by first | exact hp | decide) h.1 h.2])
  | uint n =>
    cases k <;> first
      | rfl
      | (simp only [fits, bitsOf] at h
         simp only [stored, wrapUint]
         rw [Nat.mod_eq_of_lt h])

theorem Unmarshal_mismatch (P : Platform) (R : Reader) (reader reader1 : R.State) (v : Struct)
    (record : List String) (hread : R.Read reader = ((record, none), reader1))
    (hne : record.length ≠ v.NumField) :
    Unmarshal P R reader v
      = ⟨.error (.FieldMismatch v.NumField record.length), reader1, v⟩ := by
  unfold Unmarshal
  rw [hread]
  simp only [ne_eq]
  rw [if_pos (fun h => hne h.symm)]

theorem ByIndex_mismatch (P : Platform) (R : Reader) (reader reader1 : R.State) (v : Struct)
    (record : List String) (indices : List Int)
    (hread : R.Read reader = ((record, none), reader1))
    (hne : record.length ≠ v.NumField) :
    UnmarshalFieldsByIndex P R reader v indices
      = ⟨.error (.FieldMismatch v.NumField record.length), reader1, v⟩ := by
  unfold UnmarshalFieldsByIndex
  by_cases h0 : indices.length = 0
  · rw [if_pos h0]
    exact Unmarshal_mismatch P R reader reader1 v record hread hne
  · rw [if_neg h0, hread]
    simp only [ne_eq]
    rw [if_pos (fun h => hne h.symm)]

theorem holdsParsed_of_assigned (P : Platform) (s : Struct) (i : Nat) (f : Field) (c : String)
    (x : Val) (hx : parseCell P f.kind c = .value x) (hexp : f.exported = true)
    (h : s[i]? = some (assigned P f c)) :
    holdsParsed P s i f.kind x := by
  rw [assigned_of_value P f c x hx, hexp] at h
  refine ⟨h, fun hfit => ?_⟩
  rw [h, stored_of_fits P f.kind x hfit]

theorem parseCell_of_unsupported (P : Platform) (k : Kind) (c : String)
    (h : supported k = false) : parseCell P k c = .unsupported := by
  cases k <;> first | rfl | (simp [supported] at h)

theorem wellFormed_of_failure (P : Platform) (k : Kind) (c : String) (e : NumError)
    (h : parseCell P k c = .failure e) : wellFormed P k c = false := by
  simp [wellFormed, h]

theorem Unmarshal_stop (P : Platform) (R : Reader) (reader reader1 : R.State) (v : Struct)
    (row : List String) (m : Nat) (fm : Field) (cm : String)
    (hread : R.Read reader = ((row, none), reader1))
    (hlen : row.length = v.NumField)
    (hfm : v[m]? = some fm) (hcm : row[m]? = some cm)
    (hbad : passes P fm cm = false)
    (hgood : ∀ j f c, j < m → v[j]? = some f → row[j]? = some c →
      passes P f c = true) :
    ∃ s1, Unmarshal P R reader v = ⟨stopOutcome P fm cm, reader1, s1⟩ ∧
      s1.length = v.length ∧
      (∀ j, m ≤ j → s1[j]? = v[j]?) ∧
      (∀ j f c, j < m → v[j]? = some f → row[j]? = some c →
        s1[j]? = some (assigned P f c)) := by
  obtain ⟨s1, hloop, hl, hout, hin⟩ := Unmarshal_loop_stop P row m fm cm hcm hbad
    v.NumField 0 v (by simp [Struct.NumField]) hlen (Nat.zero_le m) hfm
    (fun j f c _ hjm hf hc => hgood j f c hjm hf hc)
  refine ⟨s1, ?_, hl, fun j hj => hout j (Or.inr hj),
    fun j f c hjm hf hc => hin j f c (Nat.zero_le j) hjm hf hc⟩
  rw [Unmarshal_eq_loop P R reader reader1 v row hread hlen, hloop]

theorem Unmarshal_loop_nil (P : Platform) (record : List String) :
    ∀ (left i : Nat) (s s1 : Struct), i + left = s.length → record.length = s.length →
      Unmarshal.loop P record left i s = (.nil, s1) →
      ∀ j f c, i ≤ j → s[j]? = some f → record[j]? = some c →
        passes P f c = true := by
  intro left
  induction left with
  | zero =>
    intro i s s1 hi _ _ j f c hij hf _
    have := lt_of_getElem?_some s j f hf
    omega
  | succ left ih =>
    intro i s s1 hi hlen hloop j g d hij hg hd
    obtain ⟨f, hf⟩ := getElem?_some_of_lt s i (by omega)
    obtain ⟨c, hc⟩ := getElem?_some_of_lt record i (by omega)
    cases hw : passes P f c with
    | false =>
      simp only [Unmarshal.loop, Unmarshal_body_eq_step P record s i f c hf hc,
        step_stop P s i f c hw] at hloop
      exact absurd (congrArg Prod.fst hloop) (stopOutcome_ne_nil P f c)
    | true =>
      obtain ⟨hexp, x, hx⟩ := (passes_iff P f c).1 hw
      simp only [Unmarshal.loop, Unmarshal_body_eq_step P record s i f c hf hc,
        step_value P s i f c x hx hexp] at hloop
      rcases Nat.eq_or_lt_of_le hij with heq | hlt
      · subst heq
        rw [hf] at hg; rw [hc] at hd
        cases hg; cases hd
        exact hw
      · exact ih (i + 1) (s.set i (assigned P f c)) s1
          (by rw [List.length_set]; omega) (by rw [List.length_set]; exact hlen) hloop
          j g d hlt (by rw [List.getElem?_set_ne (by omega)]; exact hg) hd

theorem Unmarshal_nil_inv (P : Platform) (R : Reader) (reader reader1 : R.State) (v : Struct)
    (row : List String) (hread : R.Read reader = ((row, none), reader1))
    (hnil : (Unmarshal P R reader v).ret = .nil) : row.length = v.NumField := by
  by_contra hne
  rw [Unmarshal_mismatch P R reader reader1 v row hread hne] at hnil
  cases hnil

theorem ByIndex_nil_inv (P : Platform) (R : Reader) (reader reader1 : R.State) (v : Struct)
    (row : List String) (indices : List Int)
    (hread : R.Read reader = ((row, none), reader1))
    (hnil : (UnmarshalFieldsByIndex P R reader v indices).ret = .nil) :
    row.length = v.NumField := by
  by_contra hne
  rw [ByIndex_mismatch P R reader reader1 v row indices hread hne] at hnil
  cases hnil

theorem ByIndex_long (P : Platform) (R : Reader) (reader reader1 : R.State) (v : Struct)
    (row : List String) (indices : List Int)
    (hread : R.Read reader = ((row, none), reader1))
    (hlen : row.length = v.NumField)
    (hlong : row.length < indices.length) :
    UnmarshalFieldsByIndex P R reader v indices = ⟨.nil, reader1, v⟩ := by
  unfold UnmarshalFieldsByIndex
  rw [if_neg (by omega), hread]
  simp only [ne_eq, hlen, not_true_eq_false, if_false]
  rw [if_pos (by rw [← hlen]; exact hlong)]

/-! ## the claims -/

/-- C1 (as stated, refuted): the record `{A: int8, B: int}` and the row
`["300", "7"]` satisfy every condition of the claim and the call succeeds,
but field `A` holds 44 while the parsed value of its cell is 300; and the
record `struct{ name string }` with the row `["Alice"]` satisfies every
condition of the claim, but the call does not return: `SetString` panics on
the unexported field. -/
theorem C1_counterexample :
    (sliceReader.Read [["300", "7"]] = ((["300", "7"], none), []) ∧
      (∀ f ∈ narrow, supported f.kind = true) ∧
      ["300", "7"].length = narrow.NumField ∧
      (∀ p ∈ narrow.zip ["300", "7"], wellFormed intOnly64 p.1.kind p.2 = true) ∧
      parseCell intOnly64 .Int8 "300" = .value (.int 300) ∧
      (Unmarshal intOnly64 sliceReader [["300", "7"]] narrow).ret = .nil ∧
      (Unmarshal intOnly64 sliceReader [["300", "7"]] narrow).v[0]?
        = some ⟨.Int8, .int 44, true⟩ ∧
      (Unmarshal intOnly64 sliceReader [["300", "7"]] narrow).v[0]?
        ≠ some ⟨.Int8, .int 300, true⟩) ∧
    ((∀ f ∈ hidden, supported f.kind = true) ∧
      ["Alice"].length = hidden.NumField ∧
      (∀ p ∈ hidden.zip ["Alice"], wellFormed intOnly64 p.1.kind p.2 = true) ∧
      (Unmarshal intOnly64 sliceReader [["Alice"]] hidden).ret = .panic .unexported ∧
      (Unmarshal intOnly64 sliceReader [["Alice"]] hidden).ret ≠ .nil) :=
  ⟨⟨rfl, by decide, by decide, by decide, by decide, by decide, by decide, by decide⟩,
   by decide, by decide, by decide, by decide, by decide⟩

/-- C1 (amended): when every field of the record is settable (exported), the
reader yields a row as long as the record has fields and every cell is
well-formed for the kind of its field (which includes that the kind is
supported), `Unmarshal` returns nil and every field holds the parsed value of
its cell converted to the field's own width; it holds the parsed value itself
whenever that value fits the field. -/
theorem C1_unmarshal_well_formed (P : Platform) (R : Reader) (reader reader1 : R.State)
    (v : Struct) (row : List String)
    (hread : R.Read reader = ((row, none), reader1))
    (hset : ∀ f ∈ v, f.exported = true)
    (hlen : row.length = v.NumField)
    (hwf : ∀ p ∈ v.zip row, wellFormed P p.1.kind p.2 = true) :
    (Unmarshal P R reader v).ret = .nil ∧
    (Unmarshal P R reader v).v.length = v.length ∧
    ∀ (i : Nat) (f : Field) (c : String) (x : Val),
      v[i]? = some f → row[i]? = some c → parseCell P f.kind c = .value x →
      (Unmarshal P R reader v).v[i]? = some ⟨f.kind, stored P f.kind x, true⟩ ∧
      (fits P f.kind x → (Unmarshal P R reader v).v[i]? = some ⟨f.kind, x, true⟩) := by
  rw [Unmarshal_eq_loop P R reader reader1 v row hread hlen]
  obtain ⟨s1, hloop, hl, _, hhigh⟩ := Unmarshal_loop_good P row v.NumField 0 v
    (by simp [Struct.NumField]) hlen
    (fun j f c _ hf hc => passes_of P f c (hset f (List.getElem?_mem hf))
      (hwf (f, c) (mem_zip_of_getElem? v row j f c hf hc)))
  rw [hloop]
  refine ⟨rfl, hl, ?_⟩
  intro i f c x hf hc hx
  exact holdsParsed_of_assigned P s1 i f c x hx (hset f (List.getElem?_mem hf))
    (hhigh i f c (Nat.zero_le i) hf hc)

/-- C1 (scenario): the record `{Name: text, Age: signed-integer}` and the row
`["Alice", "30"]` give success with `Name == "Alice"` and `Age == 30`. -/
theorem C1_witness :
    (Unmarshal intOnly64 sliceReader [["Alice", "30"]] person).ret = .nil ∧
    (Unmarshal intOnly64 sliceReader [["Alice", "30"]] person).v[0]?
      = some ⟨.String, .str "Alice", true⟩ ∧
    (Unmarshal intOnly64 sliceReader [["Alice", "30"]] person).v[1]?
      = some ⟨.Int, .int 30, true⟩ := by
  have h := C1_unmarshal_well_formed intOnly64 sliceReader [["Alice", "30"]] [] person
    ["Alice", "30"] rfl (by decide) (by decide) (by decide)
  exact ⟨h.1,
    (h.2.2 0 ⟨.String, .str "", true⟩ "Alice" (.str "Alice") (by decide) (by decide) (by decide)).1,
    (h.2.2 1 ⟨.Int, .int 0, true⟩ "30" (.int 30) (by decide) (by decide) (by decide)).2
      (by decide)⟩

/-- C2: when the row's length differs from the record's field count, both
`Unmarshal` and `UnmarshalFieldsByIndex` (with any index list) return a
`FieldMismatch` with expected = the field count and found = the row length,
and leave the target as it was. -/
theorem C2_field_count_mismatch (P : Platform) (R : Reader) (reader reader1 : R.State)
    (v : Struct) (row : List String) (indices : List Int)
    (hread : R.Read reader = ((row, none), reader1))
    (hne : row.length ≠ v.NumField) :
    (Unmarshal P R reader v).ret = .error (.FieldMismatch v.NumField row.length) ∧
    (Unmarshal P R reader v).v = v ∧
    (UnmarshalFieldsByIndex P R reader v indices).ret
      = .error (.FieldMismatch v.NumField row.length) ∧
    (UnmarshalFieldsByIndex P R reader v indices).v = v := by
  rw [Unmarshal_mismatch P R reader reader1 v row hread hne,
    ByIndex_mismatch P R reader reader1 v row indices hread hne]
  exact ⟨rfl, rfl, rfl, rfl⟩

/-- C2 (scenario): the record `{Name: text, Age: signed-integer}` and the row
`["Alice"]` give a mismatch with expected = 2 and found = 1, in both modes. -/
theorem C2_witness :
    (Unmarshal intOnly64 sliceReader [["Alice"]] person).ret
      = .error (.FieldMismatch 2 1) ∧
    (Unmarshal intOnly64 sliceReader [["Alice"]] person).v = person ∧
    (UnmarshalFieldsByIndex intOnly64 sliceReader [["Alice"]] person [0]).ret
      = .error (.FieldMismatch 2 1) ∧
    (UnmarshalFieldsByIndex intOnly64 sliceReader [["Alice"]] person [0]).v = person :=
  C2_field_count_mismatch intOnly64 sliceReader [["Alice"]] [] person ["Alice"] [0] rfl
    (by decide)

/-- C3: for a non-empty index list no longer than the row, the target after
`UnmarshalFieldsByIndex` is the target before it with the cells assigned to
the fields named by a prefix of the index list, one after the other in the
order given (the whole list when the call returns nil); every field whose
position is not in the list keeps its value, whatever the outcome and the
row. -/
theorem C3_selected_frame (P : Platform) (R : Reader) (reader reader1 : R.State)
    (v : Struct) (row : List String) (indices : List Int)
    (hread : R.Read reader = ((row, none), reader1))
    (hne : indices ≠ [])
    (hle : indices.length ≤ row.length) :
    (∀ j : Nat, (j : Int) ∉ indices →
      (UnmarshalFieldsByIndex P R reader v indices).v[j]? = v[j]?) ∧
    (UnmarshalFieldsByIndex P R reader v indices).v.length = v.length ∧
    ∃ m, m ≤ indices.length ∧
      (UnmarshalFieldsByIndex P R reader v indices).v
        = (indices.take m).foldl (assign P row) v ∧
      ((UnmarshalFieldsByIndex P R reader v indices).ret = .nil → m = indices.length) := by
  by_cases hlen : row.length = v.NumField
  · rw [ByIndex_eq_loop P R reader reader1 v row indices hread hlen hne hle]
    obtain ⟨hl, hfr⟩ := ByIndex_loop_frame P row indices v
    exact ⟨hfr, hl, ByIndex_loop_fold P row indices v⟩
  · rw [ByIndex_mismatch P R reader reader1 v row indices hread hlen]
    exact ⟨fun _ _ => rfl, rfl, 0, Nat.zero_le _, rfl, fun h => by cases h⟩

/-- C3 (scenario): a record of three fields, a row of length 3 and the
indices `[0, 2]`: fields 0 and 2 are updated, field 1 is unchanged. -/
theorem C3_witness :
    (UnmarshalFieldsByIndex intOnly64 sliceReader [["x", "oops", "9"]] triple [0, 2]).v[1]?
      = triple[1]? ∧
    (UnmarshalFieldsByIndex intOnly64 sliceReader [["x", "oops", "9"]] triple [0, 2]).v
      = [⟨.String, .str "x", true⟩, ⟨.Int, .int 1, true⟩, ⟨.Uint8, .uint 9, true⟩] := by
  have h := C3_selected_frame intOnly64 sliceReader [["x", "oops", "9"]] [] triple
    ["x", "oops", "9"] [0, 2] rfl (by decide) (by decide)
  exact ⟨h.1 1 (by decide), by decide⟩

/-- C4: with an empty index list `UnmarshalFieldsByIndex` is `Unmarshal`: the
same return value, the same target and the same reader state, for every
reader (also one that yields `io.EOF` or a read error) and every target. -/
theorem C4_empty_indices_is_unmarshal (P : Platform) (R : Reader) (reader : R.State)
    (v : Struct) :
    UnmarshalFieldsByIndex P R reader v [] = Unmarshal P R reader v := by
  unfold UnmarshalFieldsByIndex
  rfl

/-- C5: when the row has as many cells as the record has fields and the
index list is longer than the row, `UnmarshalFieldsByIndex` returns nil and
leaves the target as it was, whatever the indices, the cells and the kinds of
the fields are. -/
theorem C5_short_circuit (P : Platform) (R : Reader) (reader reader1 : R.State)
    (v : Struct) (row : List String) (indices : List Int)
    (hread : R.Read reader = ((row, none), reader1))
    (hlen : row.length = v.NumField)
    (hlong : row.length < indices.length) :
    (UnmarshalFieldsByIndex P R reader v indices).ret = .nil ∧
    (UnmarshalFieldsByIndex P R reader v indices).v = v := by
  rw [ByIndex_long P R reader reader1 v row indices hread hlen hlong]
  exact ⟨rfl, rfl⟩

/-- C5 (scenario): on the record `{Name: string, Ok: bool, Age: int}` the
indices `[7, -1, 1, 1]` (out of range, repeated, naming the `bool` field) with
a row of three malformed cells give nil and an untouched record. -/
theorem C5_witness :
    (UnmarshalFieldsByIndex intOnly64 sliceReader [["a", "b", "c"]] flagged [7, -1, 1, 1]).ret
      = .nil ∧
    (UnmarshalFieldsByIndex intOnly64 sliceReader [["a", "b", "c"]] flagged [7, -1, 1, 1]).v
      = flagged :=
  C5_short_circuit intOnly64 sliceReader [["a", "b", "c"]] [] flagged ["a", "b", "c"]
    [7, -1, 1, 1] rfl (by decide) (by decide)

/-- C6 (as stated, refuted): on the record `{A: int8, B: int}` and the row
`["300", "x"]` position 1 is the first whose cell cannot be parsed, and the
call returns that parse failure, but field `A` before it holds 44 while the
parsed value of its cell is 300. -/
theorem C6_counterexample :
    ["300", "x"].length = narrow.NumField ∧
    parseCell intOnly64 .Int "x" = .failure ⟨"ParseInt", "x", .ErrSyntax⟩ ∧
    supported Kind.Int8 = true ∧
    parseCell intOnly64 .Int8 "300" = .value (.int 300) ∧
    (Unmarshal intOnly64 sliceReader [["300", "x"]] narrow).ret
      = .error (.NumError ⟨"ParseInt", "x", .ErrSyntax⟩) ∧
    (Unmarshal intOnly64 sliceReader [["300", "x"]] narrow).v[0]? = some ⟨.Int8, .int 44, true⟩ ∧
    (Unmarshal intOnly64 sliceReader [["300", "x"]] narrow).v[0]? ≠ some ⟨.Int8, .int 300, true⟩ :=
  ⟨by decide, by decide, by decide, by decide, by decide, by decide, by decide⟩

/-- C6 (amended): on a row as long as the record, if `i` is the first position
whose cell fails to parse for its field's kind (every cell before it is
well-formed for its field's supported kind and every field before it is
settable, so that the decoder gets to position `i`), `Unmarshal` returns that
parse failure; every field before `i` holds the parsed value of its cell
converted to the field's own width (the parsed value itself when it fits),
and every field at position `i` or later keeps its value. -/
theorem C6_first_parse_failure (P : Platform) (R : Reader) (reader reader1 : R.State)
    (v : Struct) (row : List String) (i : Nat) (f : Field) (c : String) (e : NumError)
    (hread : R.Read reader = ((row, none), reader1))
    (hlen : row.length = v.NumField)
    (hf : v[i]? = some f) (hc : row[i]? = some c)
    (hbad : parseCell P f.kind c = .failure e)
    (hbefore : ∀ p ∈ (v.zip row).take i, wellFormed P p.1.kind p.2 = true)
    (hset : ∀ g ∈ v.take i, g.exported = true) :
    (Unmarshal P R reader v).ret = .error (.NumError e) ∧
    (Unmarshal P R reader v).v.length = v.length ∧
    (∀ (j : Nat) (g : Field) (d : String) (x : Val), j < i →
      v[j]? = some g → row[j]? = some d → parseCell P g.kind d = .value x →
      holdsParsed P (Unmarshal P R reader v).v j g.kind x) ∧
    (∀ j : Nat, i ≤ j → (Unmarshal P R reader v).v[j]? = v[j]?) := by
  obtain ⟨s1, hres, hl, hout, hin⟩ := Unmarshal_stop P R reader reader1 v row i f c
    hread hlen hf hc (passes_false_of P f c (wellFormed_of_failure P f.kind c e hbad))
    (fun j g d hji hg hd => passes_of P g d (hset g (mem_take_of_getElem? v i j g hji hg))
      (hbefore (g, d) (mem_take_zip_of_getElem? v row i j g d hji hg hd)))
  rw [hres]
  refine ⟨?_, hl, ?_, hout⟩
  · simp [stopOutcome, hbad]
  · intro j g d x hji hg hd hx
    exact holdsParsed_of_assigned P s1 j g d x hx
      (hset g (mem_take_of_getElem? v i j g hji hg)) (hin j g d hji hg hd)

/-- C6 (scenario): the record `{Name: text, Age: signed-integer}` and the row
`["Alice", "thirty"]` give a parse failure for the cell at position 1, with
`Name` already set to `"Alice"` and `Age` unchanged. -/
theorem C6_witness :
    (Unmarshal intOnly64 sliceReader [["Alice", "thirty"]] person).ret
      = .error (.NumError ⟨"ParseInt", "thirty", .ErrSyntax⟩) ∧
    (Unmarshal intOnly64 sliceReader [["Alice", "thirty"]] person).v[0]?
      = some ⟨.String, .str "Alice", true⟩ ∧
    (Unmarshal intOnly64 sliceReader [["Alice", "thirty"]] person).v[1]? = person[1]? := by
  have h := C6_first_parse_failure intOnly64 sliceReader [["Alice", "thirty"]] [] person
    ["Alice", "thirty"] 1 ⟨.Int, .int 0, true⟩ "thirty" ⟨"ParseInt", "thirty", .ErrSyntax⟩
    rfl (by decide) (by decide) (by decide) (by decide) (by decide) (by decide)
  exact ⟨h.1,
    (h.2.2.1 0 ⟨.String, .str "", true⟩ "Alice" (.str "Alice") (by decide) (by decide)
      (by decide) (by decide)).1,
    h.2.2.2 1 (Nat.le_refl 1)⟩

/-- C8: when `Read` returns a non-nil error (`io.EOF` or any other), both
`Unmarshal` and `UnmarshalFieldsByIndex` (with any index list) return that
very error and leave the target as it was. -/
theorem C8_reader_error (P : Platform) (R : Reader) (reader reader1 : R.State)
    (v : Struct) (row : List String) (err : GoError) (indices : List Int)
    (hread : R.Read reader = ((row, some err), reader1)) :
    (Unmarshal P R reader v).ret = .error err ∧
    (Unmarshal P R reader v).v = v ∧
    (UnmarshalFieldsByIndex P R reader v indices).ret = .error err ∧
    (UnmarshalFieldsByIndex P R reader v indices).v = v := by
  have hU : Unmarshal P R reader v = ⟨.error err, reader1, v⟩ := by
    unfold Unmarshal
    rw [hread]
  have hS : UnmarshalFieldsByIndex P R reader v indices = ⟨.error err, reader1, v⟩ := by
    unfold UnmarshalFieldsByIndex
    by_cases h0 : indices.length = 0
    · rw [if_pos h0]; exact hU
    · rw [if_neg h0, hread]
  rw [hU, hS]
  exact ⟨rfl, rfl, rfl, rfl⟩

/-- C8 (scenario): on an exhausted reader both functions return `io.EOF` and
the record `{Name, Age}` is untouched. -/
theorem C8_witness :
    (Unmarshal intOnly64 sliceReader [] person).ret = .error .EOF ∧
    (Unmarshal intOnly64 sliceReader [] person).v = person ∧
    (UnmarshalFieldsByIndex intOnly64 sliceReader [] person [1]).ret = .error .EOF ∧
    (UnmarshalFieldsByIndex intOnly64 sliceReader [] person [1]).v = person :=
  C8_reader_error intOnly64 sliceReader [] [] person [] .EOF [1] rfl

/-- C9: for every reader, target and index list, the reader after a call of
`Unmarshal` or of `UnmarshalFieldsByIndex` is in the state that one `Read`
leaves it in, whatever the outcome of the call. -/
theorem C9_one_read (P : Platform) (R : Reader) (reader : R.State) (v : Struct)
    (indices : List Int) :
    (Unmarshal P R reader v).reader = (R.Read reader).2 ∧
    (UnmarshalFieldsByIndex P R reader v indices).reader = (R.Read reader).2 := by
  have hU : (Unmarshal P R reader v).reader = (R.Read reader).2 := by
    unfold Unmarshal
    rcases R.Read reader with ⟨⟨record, _ | err⟩, reader1⟩
    · show (if Struct.NumField v ≠ record.length then _ else _ : Result R.State).reader = _
      split_ifs <;> rfl
    · rfl
  refine ⟨hU, ?_⟩
  unfold UnmarshalFieldsByIndex
  by_cases h0 : indices.length = 0
  · rw [if_pos h0]; exact hU
  · rw [if_neg h0]
    rcases R.Read reader with ⟨⟨record, _ | err⟩, reader1⟩
    · show (if Struct.NumField v ≠ record.length then _ else _ : Result R.State).reader = _
      split_ifs <;> rfl
    · rfl

/-- C9 (scenario): with three rows left, each of the two functions leaves the
reader with two rows, in the success, mismatch, short-circuit and failure
cases alike. -/
theorem C9_witness :
    (Unmarshal intOnly64 sliceReader [["Alice", "30"], ["Bob"], []] person).reader
      = [["Bob"], []] ∧
    (UnmarshalFieldsByIndex intOnly64 sliceReader [["Alice", "x"], ["Bob"], []] person
      [1]).reader = [["Bob"], []] ∧
    (UnmarshalFieldsByIndex intOnly64 sliceReader [["Bob"], ["Bob"], []] person
      [1, 1, 1]).reader = [["Bob"], []] :=
  ⟨(C9_one_read intOnly64 sliceReader [["Alice", "30"], ["Bob"], []] person []).1,
   (C9_one_read intOnly64 sliceReader [["Alice", "x"], ["Bob"], []] person [1]).2,
   (C9_one_read intOnly64 sliceReader [["Bob"], ["Bob"], []] person [1, 1, 1]).2⟩

theorem ByIndex_body_eq_Unmarshal_body (P : Platform) (record : List String) (s : Struct)
    (i : Nat) :
    UnmarshalFieldsByIndex.body P record s (i : Int) = Unmarshal.body P record s i := by
  unfold UnmarshalFieldsByIndex.body Unmarshal.body
  by_cases h : i < s.length
  · rw [if_neg (by unfold Struct.NumField; omega)]
    simp only [Int.toNat_ofNat]
  · rw [if_pos (by unfold Struct.NumField; omega), List.getElem?_eq_none (by omega)]

theorem Unmarshal_loop_eq_ByIndex_loop (P : Platform) (record : List String) :
    ∀ (left i : Nat) (s : Struct),
      Unmarshal.loop P record left i s
        = UnmarshalFieldsByIndex.loop P record ((List.range' i left).map Int.ofNat) s := by
  intro left
  induction left with
  | zero => intro i s; rfl
  | succ left ih =>
    intro i s
    have hb := ByIndex_body_eq_Unmarshal_body P record s i
    simp only [List.range', List.map_cons, Unmarshal.loop, UnmarshalFieldsByIndex.loop]
    rw [show (Int.ofNat i) = (i : Int) from rfl, hb]
    cases Unmarshal.body P record s i with
    | next s1 => exact ih (i + 1) s1
    | ret o s1 => rfl

theorem Unmarshal_read_error (P : Platform) (R : Reader) (reader reader1 : R.State)
    (v : Struct) (row : List String) (err : GoError)
    (hread : R.Read reader = ((row, some err), reader1)) :
    Unmarshal P R reader v = ⟨.error err, reader1, v⟩ := by
  unfold Unmarshal
  rw [hread]

theorem ByIndex_read_error (P : Platform) (R : Reader) (reader reader1 : R.State)
    (v : Struct) (row : List String) (err : GoError) (indices : List Int)
    (hread : R.Read reader = ((row, some err), reader1)) :
    UnmarshalFieldsByIndex P R reader v indices = ⟨.error err, reader1, v⟩ := by
  unfold UnmarshalFieldsByIndex
  by_cases h0 : indices.length = 0
  · rw [if_pos h0]; exact Unmarshal_read_error P R reader reader1 v row err hread
  · rw [if_neg h0, hread]

theorem supported_of_unsupported_parse (P : Platform) (k : Kind) (c : String)
    (h : parseCell P k c = .unsupported) : supported k = false := by
  unfold parseCell at h
  cases k <;> first
    | rfl
    | (exfalso; cases h)
    | (exfalso; revert h; rcases ParseInt c with ⟨n, _ | e⟩ <;> simp; done)
    | (exfalso; revert h; rcases ParseUint c with ⟨n, _ | e⟩ <;> simp; done)
    | (exfalso; revert h; rcases P.ParseFloat c with ⟨n, _ | e⟩ <;> simp)

theorem stopOutcome_failure (P : Platform) (f : Field) (c : String)
    (h : passes P f c = false) :
    LoopFailure (stopOutcome P f c) ∨
    (f.exported = false ∧ stopOutcome P f c = .panic .unexported) := by
  unfold passes wellFormed at h
  unfold stopOutcome
  cases hp : parseCell P f.kind c with
  | value x =>
    rw [hp] at h
    exact Or.inr ⟨by simpa using h, rfl⟩
  | failure e => exact Or.inl (Or.inr ⟨e, rfl⟩)
  | unsupported =>
    exact Or.inl (Or.inl ⟨f.kind, supported_of_unsupported_parse P f.kind c hp, rfl⟩)

theorem step_cases (P : Platform) (s : Struct) (i : Nat) (f : Field) (c : String) :
    (passes P f c = true ∧ step P s i f c = .next (s.set i (assigned P f c))) ∨
    (passes P f c = false ∧ step P s i f c = .ret (stopOutcome P f c) s) := by
  cases hw : passes P f c with
  | false => exact Or.inr ⟨rfl, step_stop P s i f c hw⟩
  | true =>
    obtain ⟨hexp, x, hx⟩ := (passes_iff P f c).1 hw
    exact Or.inl ⟨rfl, step_value P s i f c x hx hexp⟩

theorem ByIndex_loop_regular (P : Platform) (record : List String) :
    ∀ (indices : List Int) (s : Struct), record.length = s.length →
      (∀ a ∈ indices, 0 ≤ a ∧ a < (s.length : Int)) →
      (UnmarshalFieldsByIndex.loop P record indices s).1 = .nil ∨
      LoopFailure (UnmarshalFieldsByIndex.loop P record indices s).1 ∨
      ((UnmarshalFieldsByIndex.loop P record indices s).1 = .panic .unexported ∧
        ∃ g ∈ s, g.exported = false) := by
  intro indices
  induction indices with
  | nil => intro s _ _; exact Or.inl rfl
  | cons a rest ih =>
    intro s hlen hrange
    obtain ⟨h0, hlt⟩ := hrange a (List.mem_cons_self _ _)
    obtain ⟨n, rfl⟩ := Int.eq_ofNat_of_zero_le h0
    have hn : n < s.length := by omega
    obtain ⟨f, hf⟩ := getElem?_some_of_lt s n hn
    obtain ⟨c, hc⟩ := getElem?_some_of_lt record n (by omega)
    have hb := ByIndex_body_eq_step P record s n f c hf hc
    rcases step_cases P s n f c with ⟨hw, hs⟩ | ⟨hw, hs⟩
    · simp only [UnmarshalFieldsByIndex.loop, hb, hs]
      rcases ih (s.set n (assigned P f c)) (by rw [List.length_set]; exact hlen)
        (fun b hb => by
          rw [List.length_set]
          exact hrange b (List.mem_cons_of_mem _ hb)) with h | h | ⟨h, g, hg, hge⟩
      · exact Or.inl h
      · exact Or.inr (Or.inl h)
      · refine Or.inr (Or.inr ⟨h, ?_⟩)
        rcases List.mem_or_eq_of_mem_set hg with hg1 | hg1
        · exact ⟨g, hg1, hge⟩
        · exfalso
          rw [hg1, assigned_exported, ((passes_iff P f c).1 hw).1] at hge
          cases hge
    · simp only [UnmarshalFieldsByIndex.loop, hb, hs]
      rcases stopOutcome_failure P f c hw with h | ⟨he, h⟩
      · exact Or.inr (Or.inl h)
      · exact Or.inr (Or.inr ⟨h, f, List.getElem?_mem hf, he⟩)

theorem mem_allIndices (n : Nat) (a : Int) (h : a ∈ allIndices n) : 0 ≤ a ∧ a < (n : Int) := by
  unfold allIndices at h
  obtain ⟨m, hm, rfl⟩ := List.mem_map.1 h
  have := List.mem_range.1 hm
  exact ⟨Int.ofNat_nonneg m, Int.ofNat_lt.2 this⟩

theorem Unmarshal_loop_regular (P : Platform) (record : List String) (s : Struct)
    (hlen : record.length = s.length) :
    (Unmarshal.loop P record s.length 0 s).1 = .nil ∨
    LoopFailure (Unmarshal.loop P record s.length 0 s).1 ∨
    ((Unmarshal.loop P record s.length 0 s).1 = .panic .unexported ∧
      ∃ g ∈ s, g.exported = false) := by
  rw [Unmarshal_loop_eq_ByIndex_loop]
  apply ByIndex_loop_regular P record _ s hlen
  intro a ha
  rw [← List.range_eq_range'] at ha
  exact mem_allIndices s.length a ha

theorem Unmarshal_regular (P : Platform) (R : Reader) (reader : R.State) (v : Struct) :
    Regular (R.Read reader).1 v.NumField (Unmarshal P R reader v).ret ∨
    ((Unmarshal P R reader v).ret = .panic .unexported ∧ ∃ g ∈ v, g.exported = false) := by
  rcases hread : R.Read reader with ⟨⟨row, _ | err⟩, reader1⟩
  · by_cases hlen : row.length = v.NumField
    · rw [Unmarshal_eq_loop P R reader reader1 v row hread hlen]
      rcases Unmarshal_loop_regular P row v hlen with h | h | h
      · exact Or.inl (Or.inl h)
      · exact Or.inl (Or.inr (Or.inr (Or.inr ⟨rfl, hlen.symm, h⟩)))
      · exact Or.inr h
    · rw [Unmarshal_mismatch P R reader reader1 v row hread hlen]
      exact Or.inl (Or.inr (Or.inr (Or.inl ⟨rfl, fun h => hlen h.symm, rfl⟩)))
  · rw [Unmarshal_read_error P R reader reader1 v row err hread]
    exact Or.inl (Or.inr (Or.inl ⟨err, rfl, rfl⟩))

theorem ByIndex_regular (P : Platform) (R : Reader) (reader : R.State) (v : Struct)
    (indices : List Int)
    (hrange : (∀ a ∈ indices, 0 ≤ a ∧ a < (v.NumField : Int)) ∨
      (R.Read reader).1.1.length < indices.length) :
    Regular (R.Read reader).1 v.NumField (UnmarshalFieldsByIndex P R reader v indices).ret ∨
    ((UnmarshalFieldsByIndex P R reader v indices).ret = .panic .unexported ∧
      ∃ g ∈ v, g.exported = false) := by
  by_cases hnil : indices = []
  · subst hnil
    have h : UnmarshalFieldsByIndex P R reader v [] = Unmarshal P R reader v := by
      unfold UnmarshalFieldsByIndex; rfl
    rw [h]
    exact Unmarshal_regular P R reader v
  rcases hread : R.Read reader with ⟨⟨row, _ | err⟩, reader1⟩
  · rw [hread] at hrange
    by_cases hlen : row.length = v.NumField
    · by_cases hlong : row.length < indices.length
      · rw [ByIndex_long P R reader reader1 v row indices hread hlen hlong]
        exact Or.inl (Or.inl rfl)
      · rw [ByIndex_eq_loop P R reader reader1 v row indices hread hlen hnil (by omega)]
        have hr : ∀ a ∈ indices, 0 ≤ a ∧ a < (v.length : Int) := by
          rcases hrange with h | h
          · exact h
          · exact absurd h hlong
        rcases ByIndex_loop_regular P row indices v hlen hr with h | h | h
        · exact Or.inl (Or.inl h)
        · exact Or.inl (Or.inr (Or.inr (Or.inr ⟨rfl, hlen.symm, h⟩)))
        · exact Or.inr h
    · rw [ByIndex_mismatch P R reader reader1 v row indices hread hlen]
      exact Or.inl (Or.inr (Or.inr (Or.inl ⟨rfl, fun h => hlen h.symm, rfl⟩)))
  · rw [ByIndex_read_error P R reader reader1 v row err indices hread]
    exact Or.inl (Or.inr (Or.inl ⟨err, rfl, rfl⟩))

theorem Regular_of_settable (read : List String × Option GoError) (n : Nat) (o : Outcome)
    (v : Struct) (hset : ∀ g ∈ v, g.exported = true)
    (h : Regular read n o ∨ (o = .panic .unexported ∧ ∃ g ∈ v, g.exported = false)) :
    Regular read n o := by
  rcases h with h | ⟨_, g, hg, hge⟩
  · exact h
  · rw [hset g hg] at hge
    cases hge

theorem Regular_ne_panic (read : List String × Option GoError) (n : Nat) (o : Outcome)
    (h : Regular read n o) (p : Panic) : o ≠ .panic p := by
  rintro rfl
  rcases h with h | ⟨e, _, h⟩ | ⟨_, _, h⟩ | ⟨_, _, ⟨k, _, h⟩ | ⟨e, h⟩⟩ <;> cases h

theorem no_index_panic (read : List String × Option GoError) (n : Nat) (o : Outcome)
    (v : Struct)
    (h : Regular read n o ∨ (o = .panic .unexported ∧ ∃ g ∈ v, g.exported = false)) :
    o ≠ .panic .fieldIndex ∧ o ≠ .panic .sliceIndex ∧
    ((∀ g ∈ v, g.exported = true) → ∀ p, o ≠ .panic p) := by
  rcases h with h | ⟨h, g, hg, hge⟩
  · exact ⟨Regular_ne_panic read n o h _, Regular_ne_panic read n o h _,
      fun _ p => Regular_ne_panic read n o h p⟩
  · subst h
    refine ⟨by simp, by simp, fun hset => ?_⟩
    rw [hset g hg] at hge
    cases hge

theorem allIndices_length (n : Nat) : (allIndices n).length = n := by
  simp [allIndices]

/-- C11 (as stated, refuted): on the record `{Name, Age}` and the row
`["Alice", "30"]` the index lists `[5]` and `[-1]` make
`UnmarshalFieldsByIndex` end in reflect's out-of-range panic, and on the
record `struct{ name string }` and the row `["Alice"]` `Unmarshal` ends in the
panic of `SetString` on the unexported field; neither is success or one of
the four failure kinds. -/
theorem C11_counterexample :
    ((UnmarshalFieldsByIndex intOnly64 sliceReader [["Alice", "30"]] person [5]).ret
        = .panic .fieldIndex ∧
      (UnmarshalFieldsByIndex intOnly64 sliceReader [["Alice", "30"]] person [-1]).ret
        = .panic .fieldIndex ∧
      ¬ Regular (sliceReader.Read [["Alice", "30"]]).1 person.NumField
        (UnmarshalFieldsByIndex intOnly64 sliceReader [["Alice", "30"]] person [5]).ret) ∧
    ((Unmarshal intOnly64 sliceReader [["Alice"]] hidden).ret = .panic .unexported ∧
      ¬ Regular (sliceReader.Read [["Alice"]]).1 hidden.NumField
        (Unmarshal intOnly64 sliceReader [["Alice"]] hidden).ret) := by
  refine ⟨⟨by decide, by decide, ?_⟩, by decide, ?_⟩
  · intro h
    exact Regular_ne_panic _ _ _ h .fieldIndex (by decide)
  · intro h
    exact Regular_ne_panic _ _ _ h .unexported (by decide)

/-- C11 (amended): on a record whose fields are all settable (exported),
`Unmarshal` always ends in success or in exactly one of the four failure
kinds (row-source failure, field-count mismatch, unsupported field type, cell
parse failure), and so does `UnmarshalFieldsByIndex` for every index list
whose entries all lie in `[0, field count)` (the empty list included) or that
is longer than the row. -/
theorem C11_regular_endings (P : Platform) (R : Reader) (reader : R.State) (v : Struct)
    (indices : List Int)
    (hset : ∀ g ∈ v, g.exported = true)
    (hrange : (∀ a ∈ indices, 0 ≤ a ∧ a < (v.NumField : Int)) ∨
      (R.Read reader).1.1.length < indices.length) :
    Regular (R.Read reader).1 v.NumField (Unmarshal P R reader v).ret ∧
    Regular (R.Read reader).1 v.NumField (UnmarshalFieldsByIndex P R reader v indices).ret :=
  ⟨Regular_of_settable _ _ _ v hset (Unmarshal_regular P R reader v),
   Regular_of_settable _ _ _ v hset (ByIndex_regular P R reader v indices hrange)⟩

/-- C11 (scenario): on `{Name: string, Ok: bool, Age: int}` and the row
`["Alice", "true", "30"]` the in-range indices `[2, 1, 0]` end in the
unsupported-type failure, and the out-of-range but too long list
`[9, 9, 9, 9]` ends in success. -/
theorem C11_witness :
    (UnmarshalFieldsByIndex intOnly64 sliceReader [["Alice", "true", "30"]] flagged
      [2, 1, 0]).ret = .error (.UnsupportedType .Bool) ∧
    Regular (sliceReader.Read [["Alice", "true", "30"]]).1 flagged.NumField
      (UnmarshalFieldsByIndex intOnly64 sliceReader [["Alice", "true", "30"]] flagged
        [2, 1, 0]).ret ∧
    Regular (sliceReader.Read [["Alice", "true", "30"]]).1 flagged.NumField
      (UnmarshalFieldsByIndex intOnly64 sliceReader [["Alice", "true", "30"]] flagged
        [9, 9, 9, 9]).ret :=
  ⟨by decide,
   (C11_regular_endings intOnly64 sliceReader [["Alice", "true", "30"]] flagged [2, 1, 0]
      (by decide) (Or.inl (by decide))).2,
   (C11_regular_endings intOnly64 sliceReader [["Alice", "true", "30"]] flagged [9, 9, 9, 9]
      (by decide) (Or.inr (by decide))).2⟩

/-- C15: for every reader and every target record, `UnmarshalFieldsByIndex`
with the full ascending index list `[0, 1, ..., n-1]` (`n` the field count)
gives the result of `Unmarshal`: the same return value, the same final target
and the same reader state. -/
theorem C15_all_indices_is_unmarshal (P : Platform) (R : Reader) (reader : R.State)
    (v : Struct) :
    UnmarshalFieldsByIndex P R reader v (allIndices v.NumField) = Unmarshal P R reader v := by
  by_cases hn : v.NumField = 0
  · rw [hn]
    unfold UnmarshalFieldsByIndex
    rfl
  · have hne : allIndices v.NumField ≠ [] := by
      intro h
      have := allIndices_length v.NumField
      rw [h] at this
      exact hn this.symm
    rcases hread : R.Read reader with ⟨⟨row, _ | err⟩, reader1⟩
    · by_cases hlen : row.length = v.NumField
      · rw [ByIndex_eq_loop P R reader reader1 v row _ hread hlen hne
            (by rw [allIndices_length, hlen]),
          Unmarshal_eq_loop P R reader reader1 v row hread hlen,
          Unmarshal_loop_eq_ByIndex_loop, ← List.range_eq_range']
        rfl
      · rw [ByIndex_mismatch P R reader reader1 v row _ hread hlen,
          Unmarshal_mismatch P R reader reader1 v row hread hlen]
    · rw [ByIndex_read_error P R reader reader1 v row err _ hread,
        Unmarshal_read_error P R reader reader1 v row err hread]

/-- C15 (scenario): on `{A: int8, B: int}` and the row `["300", "x"]` the
indices `[0, 1]` give what `Unmarshal` gives: the parse failure of `"x"`, with
`A` already set. -/
theorem C15_witness :
    UnmarshalFieldsByIndex intOnly64 sliceReader [["300", "x"]] narrow [0, 1]
      = Unmarshal intOnly64 sliceReader [["300", "x"]] narrow ∧
    (UnmarshalFieldsByIndex intOnly64 sliceReader [["300", "x"]] narrow [0, 1]).ret
      = .error (.NumError ⟨"ParseInt", "x", .ErrSyntax⟩) :=
  ⟨C15_all_indices_is_unmarshal intOnly64 sliceReader [["300", "x"]] narrow, by decide⟩

/-- C17: an access out of range, `s.Field(i)` or `record[i]`, ends the call in
the panic `fieldIndex` or `sliceIndex`; `Unmarshal` never ends in either, for
any reader, row and target, and `UnmarshalFieldsByIndex` never does for an
index list whose entries all lie in `[0, field count)`: every access that is
reached is in range.  On a record whose fields are all settable these calls
do not panic at all. -/
theorem C17_no_access_out_of_range (P : Platform) (R : Reader) (reader : R.State)
    (v : Struct) (indices : List Int)
    (hrange : ∀ a ∈ indices, 0 ≤ a ∧ a < (v.NumField : Int)) :
    ((Unmarshal P R reader v).ret ≠ .panic .fieldIndex ∧
      (Unmarshal P R reader v).ret ≠ .panic .sliceIndex ∧
      ((∀ g ∈ v, g.exported = true) → ∀ p, (Unmarshal P R reader v).ret ≠ .panic p)) ∧
    ((UnmarshalFieldsByIndex P R reader v indices).ret ≠ .panic .fieldIndex ∧
      (UnmarshalFieldsByIndex P R reader v indices).ret ≠ .panic .sliceIndex ∧
      ((∀ g ∈ v, g.exported = true) →
        ∀ p, (UnmarshalFieldsByIndex P R reader v indices).ret ≠ .panic p)) :=
  ⟨no_index_panic _ _ _ v (Unmarshal_regular P R reader v),
   no_index_panic _ _ _ v (ByIndex_regular P R reader v indices (Or.inl hrange))⟩

/-- C17 (scenario): on the record of three fields and the row
`["x", "7", "9"]` the in-range indices `[2, 0, 2]` do not panic. -/
theorem C17_witness :
    (∀ p, (Unmarshal intOnly64 sliceReader [["x", "7", "9"]] triple).ret ≠ .panic p) ∧
    (∀ p, (UnmarshalFieldsByIndex intOnly64 sliceReader [["x", "7", "9"]] triple
      [2, 0, 2]).ret ≠ .panic p) :=
  ⟨(C17_no_access_out_of_range intOnly64 sliceReader [["x", "7", "9"]] triple [2, 0, 2]
      (by decide)).1.2.2 (by decide),
   (C17_no_access_out_of_range intOnly64 sliceReader [["x", "7", "9"]] triple [2, 0, 2]
      (by decide)).2.2.2 (by decide)⟩

/-! ## more on the loop of UnmarshalFieldsByIndex -/

theorem set_kind (s : Struct) (m : Nat) (f g : Field) (hf : s[m]? = some f)
    (hk : g.kind = f.kind) (n : Nat) :
    ((s.set m g)[n]?).map (·.kind) = (s[n]?).map (·.kind) := by
  by_cases h : m = n
  · subst h
    rw [List.getElem?_set_self (lt_of_getElem?_some s m f hf), hf]
    simp [hk]
  · rw [List.getElem?_set_ne h]

theorem set_sig (s : Struct) (m : Nat) (f g : Field) (hf : s[m]? = some f)
    (hk : g.kind = f.kind) (he : g.exported = f.exported) (n : Nat) :
    ((s.set m g)[n]?).map (fun x => (x.kind, x.exported))
      = (s[n]?).map (fun x => (x.kind, x.exported)) := by
  by_cases h : m = n
  · subst h
    rw [List.getElem?_set_self (lt_of_getElem?_some s m f hf), hf]
    simp [hk, he]
  · rw [List.getElem?_set_ne h]

theorem passAt_congr (P : Platform) (s1 s : Struct) (row : List String)
    (h : ∀ n : Nat, (s1[n]?).map (fun x => (x.kind, x.exported))
      = (s[n]?).map (fun x => (x.kind, x.exported))) (a : Int) :
    passAt P s1 row a = passAt P s row a := by
  unfold passAt
  have hk := h a.toNat
  cases h1 : s1[a.toNat]? with
  | none =>
    cases h2 : s[a.toNat]? with
    | none => rfl
    | some g => rw [h1, h2] at hk; cases hk
  | some f =>
    cases h2 : s[a.toNat]? with
    | none => rw [h1, h2] at hk; cases hk
    | some g =>
      rw [h1, h2] at hk
      have hfg : f.kind = g.kind ∧ f.exported = g.exported := by simpa using hk
      cases row[a.toNat]? with
      | none => rfl
      | some c => simp only [passes, hfg.1, hfg.2]

theorem stopOutcome_congr (P : Platform) (f g : Field) (c : String) (h : f.kind = g.kind) :
    stopOutcome P f c = stopOutcome P g c := by
  unfold stopOutcome
  rw [h]

theorem ByIndex_loop_kind (P : Platform) (record : List String) :
    ∀ (indices : List Int) (s : Struct) (n : Nat),
      ((UnmarshalFieldsByIndex.loop P record indices s).2[n]?).map (·.kind)
        = (s[n]?).map (·.kind) := by
  intro indices
  induction indices with
  | nil => intro s n; rfl
  | cons a rest ih =>
    intro s n
    rcases ByIndex_body_cases P record s a with ⟨o, _, hb⟩ | ⟨f, c, h0, hf, hc, _, hb⟩
    · simp only [UnmarshalFieldsByIndex.loop, hb]
    · simp only [UnmarshalFieldsByIndex.loop, hb]
      rw [ih (s.set a.toNat (assigned P f c)) n]
      exact set_kind s a.toNat f _ hf (assigned_kind P f c) n

theorem ByIndex_loop_append (P : Platform) (record : List String) (rest : List Int) :
    ∀ (pre : List Int) (s s1 : Struct),
      UnmarshalFieldsByIndex.loop P record pre s = (.nil, s1) →
      UnmarshalFieldsByIndex.loop P record (pre ++ rest) s
        = UnmarshalFieldsByIndex.loop P record rest s1 := by
  intro pre
  induction pre with
  | nil =>
    intro s s1 h
    simp only [UnmarshalFieldsByIndex.loop] at h
    cases h
    rfl
  | cons a pre ih =>
    intro s s1 h
    rcases ByIndex_body_cases P record s a with ⟨o, ho, hb⟩ | ⟨f, c, h0, hf, hc, _, hb⟩
    · simp only [UnmarshalFieldsByIndex.loop, hb] at h
      exact absurd (congrArg Prod.fst h) ho
    · simp only [UnmarshalFieldsByIndex.loop, hb] at h
      simp only [List.cons_append, UnmarshalFieldsByIndex.loop, hb]
      exact ih _ s1 h

theorem passAt_elim (P : Platform) (s : Struct) (row : List String) (a : Int)
    (h : passAt P s row a = true) :
    ∃ f c, s[a.toNat]? = some f ∧ row[a.toNat]? = some c ∧ passes P f c = true := by
  unfold passAt at h
  cases h1 : s[a.toNat]? with
  | none => rw [h1] at h; cases h
  | some f =>
    cases h2 : row[a.toNat]? with
    | none => rw [h1, h2] at h; cases h
    | some c =>
      rw [h1, h2] at h
      exact ⟨f, c, rfl, rfl, h⟩

theorem passAt_intro (P : Platform) (s : Struct) (row : List String) (a : Int) (f : Field)
    (c : String) (hf : s[a.toNat]? = some f) (hc : row[a.toNat]? = some c) :
    passAt P s row a = passes P f c := by
  unfold passAt
  rw [hf, hc]

theorem passAt_of (P : Platform) (s : Struct) (row : List String) (a : Int)
    (hg : goodAt P s row a = true) (hs : settableAt s a = true) :
    passAt P s row a = true := by
  unfold goodAt at hg
  unfold settableAt at hs
  unfold passAt passes
  cases h1 : s[a.toNat]? with
  | none => rw [h1] at hs; cases hs
  | some f =>
    rw [h1] at hg hs
    cases h2 : row[a.toNat]? with
    | none => rw [h2] at hg; cases hg
    | some c =>
      rw [h2] at hg
      simp only at hg hs ⊢
      rw [hg, hs]
      rfl

theorem ByIndex_loop_good (P : Platform) (record : List String) :
    ∀ (indices : List Int) (s : Struct),
      (∀ a ∈ indices, 0 ≤ a ∧ passAt P s record a = true) →
      (UnmarshalFieldsByIndex.loop P record indices s).1 = .nil := by
  intro indices
  induction indices with
  | nil => intro s _; rfl
  | cons a rest ih =>
    intro s hgood
    obtain ⟨h0, hg⟩ := hgood a (List.mem_cons_self _ _)
    obtain ⟨f, c, hf, hc, hw⟩ := passAt_elim P s record a hg
    obtain ⟨n, rfl⟩ := Int.eq_ofNat_of_zero_le h0
    have hf1 : s[n]? = some f := by simpa using hf
    have hc1 : record[n]? = some c := by simpa using hc
    obtain ⟨hexp, x, hx⟩ := (passes_iff P f c).1 hw
    simp only [UnmarshalFieldsByIndex.loop, ByIndex_body_eq_step P record s n f c hf1 hc1,
      step_value P s n f c x hx hexp]
    apply ih
    intro b hb
    obtain ⟨hb0, hbg⟩ := hgood b (List.mem_cons_of_mem _ hb)
    refine ⟨hb0, ?_⟩
    rw [passAt_congr P _ s record
      (set_sig s n f _ hf1 (assigned_kind P f c) (assigned_exported P f c)) b]
    exact hbg

theorem ByIndex_loop_nil_iff (P : Platform) (record : List String) (indices : List Int)
    (s : Struct) (h0 : ∀ a ∈ indices, 0 ≤ a) :
    (UnmarshalFieldsByIndex.loop P record indices s).1 = .nil ↔
      ∀ a ∈ indices, passAt P s record a = true := by
  constructor
  · intro hnil a ha
    have hloop : UnmarshalFieldsByIndex.loop P record indices s
        = (.nil, (UnmarshalFieldsByIndex.loop P record indices s).2) := Prod.ext hnil rfl
    obtain ⟨_, f, c, hf, hc, hw, _⟩ := ByIndex_loop_nil P record indices s _ hloop a ha
    rw [passAt_intro P s record a f c hf hc]
    exact hw
  · intro hg
    exact ByIndex_loop_good P record indices s (fun a ha => ⟨h0 a ha, hg a ha⟩)

theorem ByIndex_loop_stop (P : Platform) (record : List String) (indices : List Int)
    (s : Struct) (j : Nat) (i : Int) (f : Field) (c : String)
    (hj : indices[j]? = some i) (h0 : 0 ≤ i)
    (hf : s[i.toNat]? = some f) (hc : record[i.toNat]? = some c)
    (hbad : wellFormed P f.kind c = false)
    (hbefore : ∀ a ∈ indices.take j, 0 ≤ a ∧ passAt P s record a = true) :
    ∃ s1, UnmarshalFieldsByIndex.loop P record (indices.take j) s = (.nil, s1) ∧
      UnmarshalFieldsByIndex.loop P record indices s = (stopOutcome P f c, s1) := by
  have hjlt : j < indices.length := lt_of_getElem?_some indices j i hj
  have hsplit : indices = indices.take j ++ i :: indices.drop (j + 1) := by
    have hget : indices[j] = i := by
      have := List.getElem?_eq_getElem hjlt
      rw [this] at hj
      exact Option.some.inj hj
    rw [← hget, ← List.drop_eq_getElem_cons hjlt, List.take_append_drop]
  have hnil := ByIndex_loop_good P record (indices.take j) s hbefore
  refine ⟨(UnmarshalFieldsByIndex.loop P record (indices.take j) s).2, Prod.ext hnil rfl, ?_⟩
  have happ := ByIndex_loop_append P record (i :: indices.drop (j + 1)) (indices.take j) s _
    (Prod.ext hnil rfl)
  rw [← hsplit] at happ
  rw [happ]
  have hkind := ByIndex_loop_kind P record (indices.take j) s i.toNat
  rw [hf] at hkind
  cases h1 : (UnmarshalFieldsByIndex.loop P record (indices.take j) s).2[i.toNat]? with
  | none => rw [h1] at hkind; cases hkind
  | some f1 =>
    rw [h1] at hkind
    have hk : f1.kind = f.kind := by simpa using hkind
    obtain ⟨n, rfl⟩ := Int.eq_ofNat_of_zero_le h0
    have h1n : (UnmarshalFieldsByIndex.loop P record (indices.take j) s).2[n]? = some f1 := by
      simpa using h1
    have hcn : record[n]? = some c := by simpa using hc
    simp only [UnmarshalFieldsByIndex.loop,
      ByIndex_body_eq_step P record _ n f1 c h1n hcn,
      step_stop P _ n f1 c (passes_false_of P f1 c (by rw [hk]; exact hbad))]
    rw [stopOutcome_congr P f1 f c hk]

/-- C14 (as stated, refuted): on `{A: int8, B: int}`, the row `["300", "x"]`
and the indices `[0, 1]`, position 1 of the list is the first that fails and
the call returns the parse failure of `"x"`, but field `A`, named before it,
holds 44 while the parsed value of its cell is 300. -/
theorem C14_counterexample :
    ["300", "x"].length = narrow.NumField ∧
    (∀ a ∈ [(0 : Int), 1], 0 ≤ a ∧ a < (narrow.NumField : Int)) ∧
    goodAt intOnly64 narrow ["300", "x"] 0 = true ∧
    goodAt intOnly64 narrow ["300", "x"] 1 = false ∧
    parseCell intOnly64 .Int8 "300" = .value (.int 300) ∧
    (UnmarshalFieldsByIndex intOnly64 sliceReader [["300", "x"]] narrow [0, 1]).ret
      = .error (.NumError ⟨"ParseInt", "x", .ErrSyntax⟩) ∧
    (UnmarshalFieldsByIndex intOnly64 sliceReader [["300", "x"]] narrow [0, 1]).v[0]?
      = some ⟨.Int8, .int 44, true⟩ ∧
    (UnmarshalFieldsByIndex intOnly64 sliceReader [["300", "x"]] narrow [0, 1]).v[0]?
      ≠ some ⟨.Int8, .int 300, true⟩ :=
  ⟨by decide, by decide, by decide, by decide, by decide, by decide, by decide, by decide⟩

/-- C14 (amended): for a non-empty in-range index list no longer than a row of
matching length, if position `j` of the list is the first whose field has an
unsupported kind or whose cell fails to parse, and the fields named by
`indices[0..j)` are settable, `UnmarshalFieldsByIndex` returns that failure
(`UnsupportedType` with the field's kind, or the parse error of the cell); the
fields named by `indices[0..j)` hold the parsed values of their cells
converted to each field's own width (the parsed value itself when it fits),
and every field not named by `indices[0..j)` keeps its value, also one that is
named only later in the list. -/
theorem C14_selected_first_failure (P : Platform) (R : Reader) (reader reader1 : R.State)
    (v : Struct) (row : List String) (indices : List Int) (j : Nat) (i : Int) (f : Field)
    (c : String)
    (hread : R.Read reader = ((row, none), reader1))
    (hlen : row.length = v.NumField)
    (hle : indices.length ≤ row.length)
    (hrange : ∀ a ∈ indices, 0 ≤ a ∧ a < (v.NumField : Int))
    (hj : indices[j]? = some i)
    (hf : v[i.toNat]? = some f) (hc : row[i.toNat]? = some c)
    (hbad : wellFormed P f.kind c = false)
    (hbefore : ∀ a ∈ indices.take j, goodAt P v row a = true)
    (hset : ∀ a ∈ indices.take j, settableAt v a = true) :
    (supported f.kind = false →
      (UnmarshalFieldsByIndex P R reader v indices).ret = .error (.UnsupportedType f.kind)) ∧
    (∀ e, parseCell P f.kind c = .failure e →
      (UnmarshalFieldsByIndex P R reader v indices).ret = .error (.NumError e)) ∧
    (∀ a ∈ indices.take j, ∃ g d x, v[a.toNat]? = some g ∧ row[a.toNat]? = some d ∧
      parseCell P g.kind d = .value x ∧
      holdsParsed P (UnmarshalFieldsByIndex P R reader v indices).v a.toNat g.kind x) ∧
    (∀ n : Nat, (n : Int) ∉ indices.take j →
      (UnmarshalFieldsByIndex P R reader v indices).v[n]? = v[n]?) := by
  have hne : indices ≠ [] := by
    intro h
    rw [h] at hj
    cases hj
  have h0 : 0 ≤ i := (hrange i (List.getElem?_mem hj)).1
  obtain ⟨s1, hpre, hloop⟩ := ByIndex_loop_stop P row indices v j i f c hj h0 hf hc hbad
    (fun a ha => ⟨(hrange a (List.mem_of_mem_take ha)).1,
      passAt_of P v row a (hbefore a ha) (hset a ha)⟩)
  rw [ByIndex_eq_loop P R reader reader1 v row indices hread hlen hne hle, hloop]
  refine ⟨?_, ?_, ?_, ?_⟩
  · intro hun
    simp [stopOutcome, parseCell_of_unsupported P f.kind c hun]
  · intro e he
    simp [stopOutcome, he]
  · intro a ha
    obtain ⟨_, g, d, hg, hd, hw, hs1⟩ := ByIndex_loop_nil P row (indices.take j) v s1 hpre a ha
    obtain ⟨hexp, x, hx⟩ := (passes_iff P g d).1 hw
    exact ⟨g, d, x, hg, hd, hx, holdsParsed_of_assigned P s1 a.toNat g d x hx hexp hs1⟩
  · intro n hn
    have hfr := (ByIndex_loop_frame P row (indices.take j) v).2 n hn
    rw [hpre] at hfr
    exact hfr

/-- C14 (scenario): on the record of three fields, the row `["x", "oops", "9"]`
and the indices `[2, 1, 0]`, the call returns the parse failure of `"oops"`;
field 2 holds 9 and field 0, named only after the failure, is unchanged. -/
theorem C14_witness :
    (UnmarshalFieldsByIndex intOnly64 sliceReader [["x", "oops", "9"]] triple [2, 1, 0]).ret
      = .error (.NumError ⟨"ParseInt", "oops", .ErrSyntax⟩) ∧
    (UnmarshalFieldsByIndex intOnly64 sliceReader [["x", "oops", "9"]] triple [2, 1, 0]).v[0]?
      = triple[0]? ∧
    (UnmarshalFieldsByIndex intOnly64 sliceReader [["x", "oops", "9"]] triple [2, 1, 0]).v[2]?
      = some ⟨.Uint8, .uint 9, true⟩ := by
  have h := C14_selected_first_failure intOnly64 sliceReader [["x", "oops", "9"]] [] triple
    ["x", "oops", "9"] [2, 1, 0] 1 1 ⟨.Int, .int 1, true⟩ "oops" rfl (by decide) (by decide)
    (by decide) (by decide) (by decide) (by decide) (by decide) (by decide) (by decide)
  exact ⟨h.2.1 ⟨"ParseInt", "oops", .ErrSyntax⟩ (by decide), h.2.2.2 0 (by decide), by decide⟩

/-- C16: for a row of matching length and two non-empty in-range index lists
with the same positions, both no longer than the row,
`UnmarshalFieldsByIndex` returns nil with the one exactly when it returns nil
with the other, and then the final targets are equal.  Repetitions that make
the list longer than the row change the result: on `{Name, Age}` and
`["Alice", "30"]` the list `[0]` sets `Name`, the list `[0, 0, 0]` returns nil
and sets nothing. -/
theorem C16_same_positions (P : Platform) (R : Reader) (reader reader1 : R.State)
    (v : Struct) (row : List String) (L1 L2 : List Int)
    (hread : R.Read reader = ((row, none), reader1))
    (hlen : row.length = v.NumField)
    (hne1 : L1 ≠ []) (hne2 : L2 ≠ [])
    (hle1 : L1.length ≤ row.length) (hle2 : L2.length ≤ row.length)
    (hr1 : ∀ a ∈ L1, 0 ≤ a ∧ a < (v.NumField : Int))
    (hr2 : ∀ a ∈ L2, 0 ≤ a ∧ a < (v.NumField : Int))
    (h12 : ∀ a ∈ L1, a ∈ L2) (h21 : ∀ a ∈ L2, a ∈ L1) :
    ((UnmarshalFieldsByIndex P R reader v L1).ret = .nil ↔
      (UnmarshalFieldsByIndex P R reader v L2).ret = .nil) ∧
    ((UnmarshalFieldsByIndex P R reader v L1).ret = .nil →
      (UnmarshalFieldsByIndex P R reader v L1).v = (UnmarshalFieldsByIndex P R reader v L2).v) ∧
    ((UnmarshalFieldsByIndex intOnly64 sliceReader [["Alice", "30"]] person [0]).v
        = [⟨.String, .str "Alice", true⟩, ⟨.Int, .int 0, true⟩] ∧
      (UnmarshalFieldsByIndex intOnly64 sliceReader [["Alice", "30"]] person [0, 0, 0]).ret
        = .nil ∧
      (UnmarshalFieldsByIndex intOnly64 sliceReader [["Alice", "30"]] person [0, 0, 0]).v
        = person) := by
  rw [ByIndex_eq_loop P R reader reader1 v row L1 hread hlen hne1 hle1,
    ByIndex_eq_loop P R reader reader1 v row L2 hread hlen hne2 hle2]
  have hiff1 := ByIndex_loop_nil_iff P row L1 v (fun a ha => (hr1 a ha).1)
  have hiff2 := ByIndex_loop_nil_iff P row L2 v (fun a ha => (hr2 a ha).1)
  have hiff : (UnmarshalFieldsByIndex.loop P row L1 v).1 = .nil ↔
      (UnmarshalFieldsByIndex.loop P row L2 v).1 = .nil := by
    rw [hiff1, hiff2]
    exact ⟨fun h a ha => h a (h21 a ha), fun h a ha => h a (h12 a ha)⟩
  refine ⟨hiff, ?_, by decide, by decide, by decide⟩
  intro hnil1
  have hnil2 := hiff.1 hnil1
  have hl1 : UnmarshalFieldsByIndex.loop P row L1 v
      = (.nil, (UnmarshalFieldsByIndex.loop P row L1 v).2) := Prod.ext hnil1 rfl
  have hl2 : UnmarshalFieldsByIndex.loop P row L2 v
      = (.nil, (UnmarshalFieldsByIndex.loop P row L2 v).2) := Prod.ext hnil2 rfl
  apply List.ext_getElem?
  intro n
  show (UnmarshalFieldsByIndex.loop P row L1 v).2[n]?
    = (UnmarshalFieldsByIndex.loop P row L2 v).2[n]?
  by_cases hn : (n : Int) ∈ L1
  · obtain ⟨_, f, c, hf, hc, _, hs1⟩ := ByIndex_loop_nil P row L1 v _ hl1 (n : Int) hn
    obtain ⟨_, g, d, hg, hd, _, hs2⟩ := ByIndex_loop_nil P row L2 v _ hl2 (n : Int) (h12 _ hn)
    rw [hf] at hg
    rw [hc] at hd
    cases hg
    cases hd
    simp only [Int.toNat_ofNat] at hs1 hs2
    rw [hs1, hs2]
  · rw [(ByIndex_loop_frame P row L1 v).2 n hn,
      (ByIndex_loop_frame P row L2 v).2 n (fun h => hn (h21 _ h))]

/-- C16 (scenario): on the record of three fields and the row `["x", "7", "9"]`
the lists `[0, 2]` and `[2, 0, 2]` both return nil and leave the same
target. -/
theorem C16_witness :
    (UnmarshalFieldsByIndex intOnly64 sliceReader [["x", "7", "9"]] triple [0, 2]).ret = .nil ∧
    (UnmarshalFieldsByIndex intOnly64 sliceReader [["x", "7", "9"]] triple [2, 0, 2]).ret
      = .nil ∧
    (UnmarshalFieldsByIndex intOnly64 sliceReader [["x", "7", "9"]] triple [0, 2]).v
      = (UnmarshalFieldsByIndex intOnly64 sliceReader [["x", "7", "9"]] triple [2, 0, 2]).v := by
  have h := C16_same_positions intOnly64 sliceReader [["x", "7", "9"]] [] triple
    ["x", "7", "9"] [0, 2] [2, 0, 2] rfl (by decide) (by decide) (by decide) (by decide)
    (by decide) (by decide) (by decide) (by decide) (by decide)
  have h1 : (UnmarshalFieldsByIndex intOnly64 sliceReader [["x", "7", "9"]] triple
      [0, 2]).ret = .nil := by decide
  exact ⟨h1, h.1.1 h1, h.2.1 h1⟩

/-! ## what a successful call leaves in a field -/

theorem Unmarshal_nil_assigned (P : Platform) (R : Reader) (reader reader1 : R.State)
    (v : Struct) (row : List String)
    (hread : R.Read reader = ((row, none), reader1))
    (hnil : (Unmarshal P R reader v).ret = .nil)
    (i : Nat) (f : Field) (c : String) (hf : v[i]? = some f) (hc : row[i]? = some c) :
    passes P f c = true ∧ (Unmarshal P R reader v).v[i]? = some (assigned P f c) := by
  have hlen := Unmarshal_nil_inv P R reader reader1 v row hread hnil
  rw [Unmarshal_eq_loop P R reader reader1 v row hread hlen] at hnil ⊢
  have hloop : Unmarshal.loop P row v.NumField 0 v
      = (.nil, (Unmarshal.loop P row v.NumField 0 v).2) := Prod.ext hnil rfl
  have hgood := Unmarshal_loop_nil P row v.NumField 0 v _ (by simp [Struct.NumField]) hlen
    hloop
  obtain ⟨s1, hloop1, _, _, hhigh⟩ := Unmarshal_loop_good P row v.NumField 0 v
    (by simp [Struct.NumField]) hlen hgood
  refine ⟨hgood i f c (Nat.zero_le i) hf hc, ?_⟩
  rw [hloop1]
  exact hhigh i f c (Nat.zero_le i) hf hc

theorem ByIndex_nil_assigned (P : Platform) (R : Reader) (reader reader1 : R.State)
    (v : Struct) (row : List String) (indices : List Int)
    (hread : R.Read reader = ((row, none), reader1))
    (hne : indices ≠ []) (hle : indices.length ≤ row.length)
    (hnil : (UnmarshalFieldsByIndex P R reader v indices).ret = .nil)
    (i : Nat) (hi : (i : Int) ∈ indices) (f : Field) (c : String)
    (hf : v[i]? = some f) (hc : row[i]? = some c) :
    passes P f c = true ∧
    (UnmarshalFieldsByIndex P R reader v indices).v[i]? = some (assigned P f c) := by
  have hlen := ByIndex_nil_inv P R reader reader1 v row indices hread hnil
  rw [ByIndex_eq_loop P R reader reader1 v row indices hread hlen hne hle] at hnil ⊢
  have hloop : UnmarshalFieldsByIndex.loop P row indices v
      = (.nil, (UnmarshalFieldsByIndex.loop P row indices v).2) := Prod.ext hnil rfl
  obtain ⟨_, g, d, hg, hd, hw, hs1⟩ := ByIndex_loop_nil P row indices v _ hloop (i : Int) hi
  simp only [Int.toNat_ofNat] at hg hd hs1
  rw [hf] at hg
  rw [hc] at hd
  cases hg
  cases hd
  exact ⟨hw, hs1⟩

theorem wrapInt_emod (w : Nat) (n : Int) : wrapInt w n % 2 ^ w = n % 2 ^ w := by
  unfold wrapInt
  rw [Int.sub_emod, Int.emod_emod_of_dvd _ (dvd_refl _), ← Int.sub_emod]
  simp

theorem wrapInt_range (w : Nat) (n : Int) (hw : 0 < w) :
    -(2 ^ (w - 1) : Int) ≤ wrapInt w n ∧ wrapInt w n < 2 ^ (w - 1) := by
  unfold wrapInt
  have h2 : (2 : Int) ^ w = 2 * 2 ^ (w - 1) := by
    obtain ⟨b, rfl⟩ : ∃ b, w = b + 1 := ⟨w - 1, by omega⟩
    simp [pow_succ, mul_comm]
  have hpos : (0 : Int) < 2 ^ w := by positivity
  have h1 := Int.emod_nonneg (n + 2 ^ (w - 1)) (ne_of_gt hpos)
  have h3 := Int.emod_lt_of_pos (n + 2 ^ (w - 1)) hpos
  constructor <;> omega

theorem wrapInt_eq_iff (w : Nat) (n : Int) (hw : 0 < w) :
    wrapInt w n = n ↔ -(2 ^ (w - 1) : Int) ≤ n ∧ n < 2 ^ (w - 1) := by
  constructor
  · intro h
    have := wrapInt_range w n hw
    rw [h] at this
    exact this
  · intro h
    exact wrapInt_of_fits w n hw h.1 h.2

theorem signedWidth_pos (k : Kind) (w : Nat) (h : signedWidth k = some w) : 0 < w := by
  cases k <;> simp [signedWidth] at h <;> omega

theorem parseCell_signed (P : Platform) (k : Kind) (w : Nat) (c : String) (n : Int)
    (hk : signedWidth k = some w) (hp : ParseInt c = (n, none)) :
    parseCell P k c = .value (.int n) ∧ stored P k (.int n) = .int (wrapInt w n) := by
  cases k <;> simp [signedWidth] at hk <;> subst hk <;> simp [parseCell, hp, stored]

theorem parseCell_unsigned (P : Platform) (k : Kind) (w : Nat) (c : String) (n : Nat)
    (hk : unsignedWidth k = some w) (hp : ParseUint c = (n, none)) :
    parseCell P k c = .value (.uint n) ∧ stored P k (.uint n) = .uint (n % 2 ^ w) := by
  cases k <;> simp [unsignedWidth] at hk <;> subst hk <;>
    simp [parseCell, hp, stored, wrapUint]

/-- C18: when the cell of a signed field of declared width `w` (8, 16 or 32
bits) parses as the 64-bit integer `n`, a call that returns nil leaves in the
field the `w`-bit two's-complement integer congruent to `n` modulo `2^w`
(`wrapInt w n`), which is `n` exactly when `-2^(w-1) <= n < 2^(w-1)`; an
unsigned field of width `w` whose cell parses as `n` is left with
`n mod 2^w`.  This holds for `Unmarshal` and for `UnmarshalFieldsByIndex` with
a non-empty index list, no longer than the row, that names the field. -/
theorem C18_narrow_width_storage (P : Platform) (R : Reader) (reader reader1 : R.State)
    (v : Struct) (row : List String) (indices : List Int) (i : Nat) (f : Field) (c : String)
    (w : Nat)
    (hread : R.Read reader = ((row, none), reader1))
    (hf : v[i]? = some f) (hc : row[i]? = some c)
    (hne : indices ≠ []) (hle : indices.length ≤ row.length) (hi : (i : Int) ∈ indices) :
    (∀ n : Int, signedWidth f.kind = some w → ParseInt c = (n, none) →
      ((Unmarshal P R reader v).ret = .nil →
        (Unmarshal P R reader v).v[i]? = some ⟨f.kind, .int (wrapInt w n), true⟩) ∧
      ((UnmarshalFieldsByIndex P R reader v indices).ret = .nil →
        (UnmarshalFieldsByIndex P R reader v indices).v[i]?
          = some ⟨f.kind, .int (wrapInt w n), true⟩) ∧
      wrapInt w n % 2 ^ w = n % 2 ^ w ∧
      -(2 ^ (w - 1) : Int) ≤ wrapInt w n ∧ wrapInt w n < 2 ^ (w - 1) ∧
      (wrapInt w n = n ↔ -(2 ^ (w - 1) : Int) ≤ n ∧ n < 2 ^ (w - 1))) ∧
    (∀ n : Nat, unsignedWidth f.kind = some w → ParseUint c = (n, none) →
      ((Unmarshal P R reader v).ret = .nil →
        (Unmarshal P R reader v).v[i]? = some ⟨f.kind, .uint (n % 2 ^ w), true⟩) ∧
      ((UnmarshalFieldsByIndex P R reader v indices).ret = .nil →
        (UnmarshalFieldsByIndex P R reader v indices).v[i]?
          = some ⟨f.kind, .uint (n % 2 ^ w), true⟩)) := by
  constructor
  · intro n hk hp
    obtain ⟨hpc, hst⟩ := parseCell_signed P f.kind w c n hk hp
    have hw := signedWidth_pos f.kind w hk
    have ha : passes P f c = true → assigned P f c = ⟨f.kind, .int (wrapInt w n), true⟩ := by
      intro hpass
      rw [assigned_of_value P f c _ hpc, hst, ((passes_iff P f c).1 hpass).1]
    refine ⟨?_, ?_, wrapInt_emod w n, (wrapInt_range w n hw).1, (wrapInt_range w n hw).2,
      wrapInt_eq_iff w n hw⟩
    · intro hnil
      have h := Unmarshal_nil_assigned P R reader reader1 v row hread hnil i f c hf hc
      rw [h.2, ha h.1]
    · intro hnil
      have h := ByIndex_nil_assigned P R reader reader1 v row indices hread hne hle hnil i hi
        f c hf hc
      rw [h.2, ha h.1]
  · intro n hk hp
    obtain ⟨hpc, hst⟩ := parseCell_unsigned P f.kind w c n hk hp
    have ha : passes P f c = true → assigned P f c = ⟨f.kind, .uint (n % 2 ^ w), true⟩ := by
      intro hpass
      rw [assigned_of_value P f c _ hpc, hst, ((passes_iff P f c).1 hpass).1]
    constructor
    · intro hnil
      have h := Unmarshal_nil_assigned P R reader reader1 v row hread hnil i f c hf hc
      rw [h.2, ha h.1]
    · intro hnil
      have h := ByIndex_nil_assigned P R reader reader1 v row indices hread hne hle hnil i hi
        f c hf hc
      rw [h.2, ha h.1]

/-- C18 (scenario): `"300"` decoded into an `int8` field stores 44, in both
modes; `"-129"` stores 127. -/
theorem C18_witness :
    (Unmarshal intOnly64 sliceReader [["300"]] tiny).v[0]? = some ⟨.Int8, .int 44, true⟩ ∧
    (UnmarshalFieldsByIndex intOnly64 sliceReader [["300"]] tiny [0]).v[0]?
      = some ⟨.Int8, .int 44, true⟩ ∧
    (Unmarshal intOnly64 sliceReader [["-129"]] tiny).v[0]? = some ⟨.Int8, .int 127, true⟩ := by
  have h := (C18_narrow_width_storage intOnly64 sliceReader [["300"]] [] tiny ["300"] [0] 0
    ⟨.Int8, .int 0, true⟩ "300" 8 rfl (by decide) (by decide) (by decide) (by decide)
    (by decide)).1 300 (by decide) (by decide)
  exact ⟨h.1 (by decide), h.2.1 (by decide), by decide⟩

/-! ## strconv against the decimal reading of a cell -/

theorem inUint64_iff (s : String) :
    inUint64 s = true ↔
      s.toList ≠ [] ∧ s.toList.all isDigit = true ∧
        digitsValue s.toList < 18446744073709551616 := by
  unfold inUint64 decimalNat
  by_cases h : s.toList ≠ [] ∧ s.toList.all isDigit = true
  · rw [if_pos h]
    have h64 : (2 : Nat) ^ 64 = 18446744073709551616 := by norm_num
    simp only [decide_eq_true_eq, h64]
    exact ⟨fun hlt => ⟨h.1, h.2, hlt⟩, fun hr => hr.2.2⟩
  · rw [if_neg h]
    simp only [Bool.false_eq_true, false_iff]
    intro h1
    exact h ⟨h1.1, h1.2.1⟩

theorem inUint64_mk (cs : List Char) :
    inUint64 (String.mk cs) = true ↔
      cs ≠ [] ∧ cs.all isDigit = true ∧ digitsValue cs < 18446744073709551616 :=
  inUint64_iff (String.mk cs)

theorem digitChar_toNat (d : Nat) (h : d < 10) : (digitChar d).toNat = d + 48 := by
  interval_cases d <;> rfl

theorem digitChar_isDigit (d : Nat) (h : d < 10) : isDigit (digitChar d) = true := by
  interval_cases d <;> decide

theorem digitsAcc_append (n : Nat) (xs ys : List Char) :
    digitsAcc n (xs ++ ys) = digitsAcc (digitsAcc n xs) ys := by
  unfold digitsAcc
  rw [List.foldl_append]

theorem formatDigits_append :
    ∀ (fuel n : Nat) (acc : List Char),
      formatDigits fuel n acc = formatDigits fuel n [] ++ acc := by
  intro fuel
  induction fuel with
  | zero => intro n acc; rfl
  | succ fuel ih =>
    intro n acc
    simp only [formatDigits]
    by_cases h : n / 10 = 0
    · rw [if_pos h, if_pos h]; rfl
    · rw [if_neg h, if_neg h, ih (n / 10) (digitChar (n % 10) :: acc),
        ih (n / 10) [digitChar (n % 10)], List.append_assoc]
      rfl

theorem formatDigits_spec :
    ∀ (fuel n : Nat), n < fuel →
      digitsValue (formatDigits fuel n []) = n ∧
      (formatDigits fuel n []).all isDigit = true := by
  intro fuel
  induction fuel with
  | zero => intro n h; omega
  | succ fuel ih =>
    intro n hn
    have hd : n % 10 < 10 := Nat.mod_lt n (by omega)
    simp only [formatDigits]
    by_cases h : n / 10 = 0
    · rw [if_pos h]
      constructor
      · show 0 * 10 + ((digitChar (n % 10)).toNat - 48) = n
        rw [digitChar_toNat _ hd]
        omega
      · simp [digitChar_isDigit _ hd]
    · rw [if_neg h, formatDigits_append]
      obtain ⟨hv, ha⟩ := ih (n / 10) (by omega)
      constructor
      · unfold digitsValue at hv ⊢
        rw [digitsAcc_append, hv]
        show n / 10 * 10 + ((digitChar (n % 10)).toNat - 48) = n
        rw [digitChar_toNat _ hd]
        omega
      · rw [List.all_append, ha]
        simp [digitChar_isDigit _ hd]

theorem Itoa_ofNat (n : Nat) :
    (Itoa (n : Int)).toList = formatDigits (n + 1) n [] := by
  unfold Itoa
  rw [if_neg (by omega)]
  rfl

theorem takeWhile_append_stop {α : Type} (p : α → Bool) (l r : List α) (b : α)
    (hl : l.all p = true) (hb : p b = false) :
    (l ++ b :: r).takeWhile p = l ∧ (l ++ b :: r).dropWhile p = b :: r := by
  induction l with
  | nil => simp [List.takeWhile, List.dropWhile, hb]
  | cons a l ih =>
    rw [List.all_cons, Bool.and_eq_true] at hl
    obtain ⟨h1, h2⟩ := ih hl.2
    simp [List.takeWhile, List.dropWhile, hl.1, h1, h2]

theorem readMismatch_Error (n m : Nat) : readMismatch (FieldMismatch.Error n m) = (n, m) := by
  obtain ⟨hvn, han⟩ := formatDigits_spec (n + 1) n (by omega)
  obtain ⟨hvm, _⟩ := formatDigits_spec (m + 1) m (by omega)
  have hlist : (FieldMismatch.Error n m).toList
      = "CSV line fields mismatch. Expected ".toList
        ++ (formatDigits (n + 1) n [] ++ ' ' :: ("found ".toList ++ formatDigits (m + 1) m [])) := by
    unfold FieldMismatch.Error
    simp only [String.toList, String.data_append]
    rw [← String.toList, ← String.toList, Itoa_ofNat, Itoa_ofNat]
    simp
  unfold readMismatch
  rw [hlist]
  have hdrop : ("CSV line fields mismatch. Expected ".toList
      ++ (formatDigits (n + 1) n [] ++ ' ' :: ("found ".toList ++ formatDigits (m + 1) m []))).drop 35
      = formatDigits (n + 1) n [] ++ ' ' :: ("found ".toList ++ formatDigits (m + 1) m []) := by
    rw [List.drop_append_of_le_length (by decide)]
    rfl
  simp only [hdrop]
  obtain ⟨h1, h2⟩ := takeWhile_append_stop isDigit (formatDigits (n + 1) n [])
    ("found ".toList ++ formatDigits (m + 1) m []) ' ' han (by decide)
  rw [h1, h2, hvn]
  show (n, digitsValue (formatDigits (m + 1) m [])) = (n, m)
  rw [hvm]

/-- C19: the message of a `FieldMismatch` with expected `n` and found `m` is
`"CSV line fields mismatch. Expected "`, the decimal rendering of `n`,
`" found "`, the decimal rendering of `m` (each rendering is a non-empty
string of decimal digits that denotes the number); the pair `(n, m)` is read
back from the message, so different pairs have different messages; and the
mismatch `Unmarshal` raises for a record of `n` fields and a row of `m` cells
carries exactly `n` and `m`. -/
theorem C19_mismatch_message (n m : Nat) :
    FieldMismatch.Error n m
      = "CSV line fields mismatch. Expected " ++ Itoa (n : Int) ++ " found " ++ Itoa (m : Int) ∧
    ((Itoa (n : Int)).toList ≠ [] ∧ (Itoa (n : Int)).toList.all isDigit = true ∧
      digitsValue (Itoa (n : Int)).toList = n) ∧
    readMismatch (FieldMismatch.Error n m) = (n, m) ∧
    (∀ n1 m1 : Nat, FieldMismatch.Error n m = FieldMismatch.Error n1 m1 → n = n1 ∧ m = m1) ∧
    (∀ (P : Platform) (R : Reader) (reader reader1 : R.State) (v : Struct) (row : List String),
      R.Read reader = ((row, none), reader1) → v.NumField = n → row.length = m → n ≠ m →
      (Unmarshal P R reader v).ret = .error (.FieldMismatch n m)) := by
  refine ⟨rfl, ?_, readMismatch_Error n m, ?_, ?_⟩
  · obtain ⟨hv, ha⟩ := formatDigits_spec (n + 1) n (by omega)
    rw [Itoa_ofNat]
    refine ⟨?_, ha, hv⟩
    intro h
    rw [h] at hv
    have h0 : n = 0 := hv.symm
    subst h0
    revert h
    decide
  · intro n1 m1 h
    have h1 := readMismatch_Error n m
    rw [h, readMismatch_Error n1 m1] at h1
    cases h1
    exact ⟨rfl, rfl⟩
  · intro P R reader reader1 v row hread hn hm hne
    subst hn
    subst hm
    rw [Unmarshal_mismatch P R reader reader1 v row hread (fun h => hne h.symm)]

/-- C19 (scenario): the mismatch raised for the record `{Name, Age}` and the
row `["Alice"]` has the message
`"CSV line fields mismatch. Expected 2 found 1"`. -/
theorem C19_witness :
    (Unmarshal intOnly64 sliceReader [["Alice"]] person).ret = .error (.FieldMismatch 2 1) ∧
    FieldMismatch.Error 2 1 = "CSV line fields mismatch. Expected 2 found 1" ∧
    readMismatch "CSV line fields mismatch. Expected 2 found 1" = (2, 1) := by
  have h := C19_mismatch_message 2 1
  refine ⟨h.2.2.2.2 intOnly64 sliceReader [["Alice"]] [] person ["Alice"] rfl (by decide)
    (by decide) (by decide), by decide, ?_⟩
  have h3 := h.2.2.1
  rw [show FieldMismatch.Error 2 1 = "CSV line fields mismatch. Expected 2 found 1" by decide]
    at h3
  exact h3

end csvhelper
